import Mathlib

/-!
Multi-level cache (`iamdanielyin/cache`): tier coordination.

Shallow embedding of the two drivers `driver/ldb/ldb.go` and
`driver/redis/redis.go` and of the way `cache.go` links them into a chain.

Modelling conventions.

* Time is an integer number of nanoseconds from the Unix epoch; `time.Duration`
  is an integer number of nanoseconds.  Every operation receives the reading of
  `time.Now()` as its first argument `now`.
* A chain of tiers is a `List Cache`: the head of the list is the tier the
  call is issued on, its `next` field is the head of the tail, and
  `next == nil` is "the tail is empty".  The `previous` field of the tier at
  position `i + 1` is the tier at position `i`.
* The storage engines are external.  `LevelDB` models `*leveldb.DB` as a
  finite key/value table, `Redis` models the server behind
  `redis.UniversalClient` as a finite table of entries with an optional
  absolute expiry plus the log of published messages.  The expiry of a key is
  the one go-redis sends (whole milliseconds or seconds) on a server clock that
  counts whole milliseconds, and the TTL command answers in whole seconds.  Both
  carry a `fault` oracle that says which backend calls fail and with which
  error; a failing call leaves the table unchanged.
* The JSON codec is external: the stored bytes are represented by the
  decoded `Envelope` (marshal followed by unmarshal is the identity).
* What the scans and counters need from outside the repository is taken as a
  parameter: the JSON text of an envelope (`marshal`), the glob matcher of the
  Redis server (`glob`), its counter commands (`rincr`, `Float64Ops.IncrByFloat`)
  and `float64` arithmetic (`Float64Ops`).  Go `int` is a 64-bit integer.
* The chain builder of `cache.go` is modelled on its own: a constructed tier is
  a `Handle`, and the calls that open or close a backend are logged in order.
-/

namespace MultiLevel

/-! ## Values, errors, envelopes -/

/-- Go `error` values the drivers distinguish. -/
inductive Error where
  | ErrNotFound
  | Nil
  | backend (code : Nat)
  | config
  | unregistered (driver : String)
  deriving DecidableEq, Repr

/-- Values handed to `Set` (`value interface{}`): strings and integers. -/
inductive Value where
  | str (s : String)
  | int (n : Int)
  deriving DecidableEq, Repr

/-- The record `levelDBCacheValue` (and the anonymous struct of `redisCache.Set`):
`expired_duration`, `created_at`, `data`. -/
structure Envelope where
  ExpiredDuration : Int
  CreatedAt : Int
  Data : Value
  deriving DecidableEq, Repr

/-- Go zero `time.Time` (1 January of year 1, UTC) in nanoseconds from the Unix epoch. -/
def zeroTime : Int := -62135596800000000000

/-- Go zero value of the envelope struct (`var v levelDBCacheValue`): no
duration, the zero time, empty data. -/
def zeroValue : Envelope := ⟨0, zeroTime, Value.str ""⟩

/-- Result of `Time.Sub`: the difference as a `time.Duration`, which is the
largest or the smallest duration when the difference is out of range. -/
def saturate64 (x : Int) : Int :=
  if x > 9223372036854775807 then 9223372036854775807
  else if x < -9223372036854775808 then -9223372036854775808
  else x

/-- `jsonparser.ParseString` applied to the raw bytes of the `data` field. -/
def ParseString : Value → String
  | Value.str s => s
  | Value.int n => toString n

/-- Decoding of the `data` field into a Go `string` field (`redisCache.HasGetString`):
a JSON number does not decode into a string and leaves the zero value. -/
def decodeString : Value → String
  | Value.str s => s
  | Value.int _ => ""

/-! ## Go `strings.Join` and `strings.Split` with a one-byte separator -/

/-- `strings.Join(elems, sep)`. -/
def Join : List String → String → String
  | [], _ => ""
  | [a], _ => a
  | a :: b :: rest, sep => a ++ sep ++ Join (b :: rest) sep

/-- Pieces of a character list between occurrences of `sep`. -/
def splitChars (sep : Char) : List Char → List (List Char)
  | [] => [[]]
  | c :: cs =>
    if c = sep then [] :: splitChars sep cs
    else
      match splitChars sep cs with
      | [] => [[c]]
      | w :: ws => (c :: w) :: ws

/-- `strings.Split(s, sep)` for a separator of one character. -/
def Split (s : String) (sep : Char) : List String :=
  (splitChars sep s.data).map String.mk

/-! ## The embedded store (`*leveldb.DB`) -/

/-- Calls made on `*leveldb.DB`. -/
inductive DBOp where
  | get
  | put
  | delete
  | iterate
  deriving DecidableEq, Repr

/-- State of a `*leveldb.DB`: the table and the fault oracle. -/
structure LevelDB where
  data : List (String × Envelope)
  fault : DBOp → String → Option Error

/-- `db.Get(key, nil)`. -/
def LevelDB.Get (db : LevelDB) (key : String) : Except Error Envelope :=
  match db.fault DBOp.get key with
  | some e => Except.error e
  | none =>
    match db.data.lookup key with
    | some v => Except.ok v
    | none => Except.error Error.ErrNotFound

/-- `db.Put(key, data, nil)`. -/
def LevelDB.Put (db : LevelDB) (key : String) (v : Envelope) : Option Error × LevelDB :=
  match db.fault DBOp.put key with
  | some e => (some e, db)
  | none => (none, { db with data := (key, v) :: db.data.filter (fun p => p.1 ≠ key) })

/-- `db.Delete(key, nil)`; deleting an absent key is not an error. -/
def LevelDB.Delete (db : LevelDB) (key : String) : Option Error × LevelDB :=
  match db.fault DBOp.delete key with
  | some e => (some e, db)
  | none => (none, { db with data := db.data.filter (fun p => p.1 ≠ key) })

/-! ## The remote store (`redis.UniversalClient`) -/

/-- Commands sent to the Redis server. -/
inductive RedisCmd where
  | get
  | set
  | del
  | ttl
  | exists
  | publish
  | scan
  deriving DecidableEq, Repr

/-- One Redis key: the stored envelope and its absolute expiry, if any. -/
structure RedisEntry where
  val : Envelope
  expireAt : Option Int
  deriving DecidableEq, Repr

/-- State of the Redis server as seen through one client. -/
structure Redis where
  data : List (String × RedisEntry)
  fault : RedisCmd → Option Error
  published : List (String × String)

/-- `redis.KeepTTL`. -/
def KeepTTL : Int := -1

/-- The entry of `key` if it exists and has not expired at `now`. -/
def Redis.live (rdb : Redis) (now : Int) (key : String) : Option RedisEntry :=
  match rdb.data.lookup key with
  | none => none
  | some ent =>
    match ent.expireAt with
    | none => some ent
    | some e => if now ≤ e then some ent else none

/-- `rdb.Get(ctx, key).Result()`; an absent key gives `redis.Nil`. -/
def Redis.Get (rdb : Redis) (now : Int) (key : String) : Except Error Envelope :=
  match rdb.fault RedisCmd.get with
  | some e => Except.error e
  | none =>
    match rdb.live now key with
    | some ent => Except.ok ent.val
    | none => Except.error Error.Nil

/-- `time.Millisecond` in nanoseconds. -/
def millisecond : Int := 1000000

/-- `time.Second` in nanoseconds. -/
def second : Int := 1000000000

/-- go-redis `usePrecise`: the expiry is sent in milliseconds (PX) unless the
duration is a whole number of seconds. -/
def usePrecise (dur : Int) : Bool := decide (dur < second ∨ dur % second ≠ 0)

/-- go-redis `formatMs`: the duration in whole milliseconds, truncated, and one
millisecond for a positive duration below one millisecond. -/
def formatMs (dur : Int) : Int :=
  if dur > 0 ∧ dur < millisecond then 1 else dur / millisecond

/-- go-redis `formatSec`: the duration in whole seconds, truncated, and one
second for a positive duration below one second. -/
def formatSec (dur : Int) : Int :=
  if dur > 0 ∧ dur < second then 1 else dur / second

/-- Expiry the server records for `SET ... PX ms` received at `now`: its clock
counts whole milliseconds and the key is expired once that clock is past
`clock(now) + ms`; the value is the last nanosecond at which the key is alive. -/
def expiryAfter (now ms : Int) : Int :=
  (now / millisecond + ms) * millisecond + (millisecond - 1)

/-- `rdb.Set(ctx, key, v, dur).Err()`: for a positive `dur` go-redis sends PX
with `formatMs dur`, or EX with `formatSec dur` when `dur` is a whole number of
seconds; `KeepTTL` keeps the present expiry, any other value stores the key
without expiry. -/
def Redis.Set (rdb : Redis) (now : Int) (key : String) (v : Envelope) (dur : Int) :
    Option Error × Redis :=
  match rdb.fault RedisCmd.set with
  | some e => (some e, rdb)
  | none =>
    let exp : Option Int :=
      if dur > 0 then
        if usePrecise dur then some (expiryAfter now (formatMs dur))
        else some (expiryAfter now (formatSec dur * 1000))
      else if dur = KeepTTL then (rdb.live now key).bind RedisEntry.expireAt
      else none
    (none, { rdb with data := (key, ⟨v, exp⟩) :: rdb.data.filter (fun p => p.1 ≠ key) })

/-- `rdb.TTL(ctx, key).Result()`: `-2` for an absent key, `-1` for a key
without expiry; otherwise the server answers the remaining milliseconds on its
clock rounded to whole seconds, which go-redis multiplies by `time.Second`;
`0` with the error on failure. -/
def Redis.TTL (rdb : Redis) (now : Int) (key : String) : Int × Option Error :=
  match rdb.fault RedisCmd.ttl with
  | some e => (0, some e)
  | none =>
    match rdb.live now key with
    | none => (-2, none)
    | some ent =>
      match ent.expireAt with
      | none => (-1, none)
      | some e => ((e / millisecond - now / millisecond + 500) / 1000 * second, none)

/-- `rdb.Exists(ctx, keys...).Val()`: the number of the given keys that exist,
`0` when the command fails. -/
def Redis.Exists (rdb : Redis) (now : Int) (keys : List String) : Int :=
  match rdb.fault RedisCmd.exists with
  | some _ => 0
  | none => ((keys.filter (fun k => (rdb.live now k).isSome)).length : Int)

/-- `rdb.Del(ctx, keys...).Err()`. -/
def Redis.Del (rdb : Redis) (keys : List String) : Option Error × Redis :=
  match rdb.fault RedisCmd.del with
  | some e => (some e, rdb)
  | none => (none, { rdb with data := rdb.data.filter (fun p => p.1 ∉ keys) })

/-- `rdb.Publish(ctx, channel, message).Err()`. -/
def Redis.Publish (rdb : Redis) (channel message : String) : Option Error × Redis :=
  match rdb.fault RedisCmd.publish with
  | some e => (some e, rdb)
  | none => (none, { rdb with published := rdb.published ++ [(channel, message)] })

/-! ## Tiers and chains -/

/-- `connectChannel`, the reserved invalidation channel. -/
def connectChannel : String := "CONNECT_CHANNEL"

/-- One tier: a `levelDBCache` wrapping a `*leveldb.DB` or a `redisCache`
wrapping a Redis client.  The links `next` and `previous` are given by the
position of the tier in the chain. -/
inductive Cache where
  | levelDBCache (db : LevelDB)
  | redisCache (rdb : Redis)

/-- Raw inspection of a tier's backend table. -/
def Cache.stored : Cache → String → Option Envelope
  | Cache.levelDBCache db, key => db.data.lookup key
  | Cache.redisCache rdb, key => (rdb.data.lookup key).map RedisEntry.val

/-- Messages published through a tier's own backend. -/
def Cache.published : Cache → List (String × String)
  | Cache.levelDBCache _ => []
  | Cache.redisCache rdb => rdb.published

/-- Error, if any, that the tier's backend write of `key` is going to report. -/
def Cache.writeFault : Cache → String → Option Error
  | Cache.levelDBCache db, key => db.fault DBOp.put key
  | Cache.redisCache rdb, _ => rdb.fault RedisCmd.set

/-- Error, if any, that the tier's backend deletion of `key` is going to report. -/
def Cache.deleteFault : Cache → String → Option Error
  | Cache.levelDBCache db, key => db.fault DBOp.delete key
  | Cache.redisCache rdb, _ => rdb.fault RedisCmd.del

/-- `levelDBCache.hasGet`: the envelope pointer (`none` is `nil`), the found
flag and the backend after the lazy eviction. -/
def hasGet (now : Int) (path : String) (db : LevelDB) : (Option Envelope × Bool) × LevelDB :=
  match db.Get path with
  | Except.ok v =>
    if v.ExpiredDuration > 0 then
      let expiredAt := v.CreatedAt + v.ExpiredDuration
      if now > expiredAt then ((none, false), (db.Delete path).2)
      else ((some v, true), db)
    else ((none, false), (db.Delete path).2)
  | Except.error err => ((some zeroValue, decide (err ≠ Error.ErrNotFound)), db)

/-- `Set(key, value, expiration...)` issued on the head of the chain
(`levelDBCache.Set`, `redisCache.Set`). -/
def Set (now : Int) (key : String) (value : Value) (expiration : List Int) :
    List Cache → Option Error × List Cache
  | [] => (none, [])
  | Cache.levelDBCache db :: next =>
    let exp : Int := expiration.headD 0
    let cv : Envelope := ⟨exp, now, value⟩
    let r := db.Put key cv
    if r.1 = none ∧ next.isEmpty = false then
      let rn := Set now key value expiration next
      (rn.1, Cache.levelDBCache r.2 :: rn.2)
    else (r.1, Cache.levelDBCache r.2 :: next)
  | Cache.redisCache rdb :: next =>
    let dur : Int := expiration.headD 0
    let cv : Envelope := ⟨dur, now, value⟩
    let r := rdb.Set now key cv dur
    if r.1 = none ∧ next.isEmpty = false then
      let rn := Set now key value expiration next
      (rn.1, Cache.redisCache r.2 :: rn.2)
    else (r.1, Cache.redisCache r.2 :: next)

/-- `TTL(path)` issued on the head of the chain (`levelDBCache.TTL`,
`redisCache.TTL`); only the head tier is consulted. -/
def TTL (now : Int) (path : String) : List Cache → (Int × Bool) × List Cache
  | [] => ((0, false), [])
  | Cache.levelDBCache db :: next =>
    let r := hasGet now path db
    if r.1.2 = false then ((0, r.1.2), Cache.levelDBCache r.2 :: next)
    else
      let v := r.1.1.getD zeroValue
      let expiredAt := v.CreatedAt + v.ExpiredDuration
      let dur := saturate64 (now - expiredAt)
      ((dur, r.1.2), Cache.levelDBCache r.2 :: next)
  | Cache.redisCache rdb :: next =>
    let r := rdb.TTL now path
    ((r.1, decide (r.2 = none)), Cache.redisCache rdb :: next)

/-- `HasGetString(path)` issued on the head of the chain
(`levelDBCache.HasGetString`, `redisCache.HasGetString`). -/
def HasGetString (now : Int) (path : String) : List Cache → (String × Bool) × List Cache
  | [] => (("", false), [])
  | Cache.levelDBCache db :: next =>
    let r := hasGet now path db
    if r.1.2 then
      ((ParseString (r.1.1.getD zeroValue).Data, r.1.2), Cache.levelDBCache r.2 :: next)
    else if next.isEmpty = false then
      let rv := HasGetString now path next
      let v := rv.1.1
      let rt := TTL now path rv.2
      let ttl := rt.1.1
      let has := rt.1.2
      if has then
        ((v, has), (Set now path (Value.str v) [ttl] (Cache.levelDBCache r.2 :: rt.2)).2)
      else ((v, has), Cache.levelDBCache r.2 :: rt.2)
    else (("", r.1.2), Cache.levelDBCache r.2 :: next)
  | Cache.redisCache rdb :: next =>
    let g := rdb.Get now path
    let has : Bool := match g with
      | Except.ok _ => true
      | Except.error _ => false
    if has = false ∧ next.isEmpty = false then
      let rv := HasGetString now path next
      let v := rv.1.1
      let rt := TTL now path rv.2
      let ttl := rt.1.1
      let has := rt.1.2
      if has then
        ((v, has), (Set now path (Value.str v) [ttl] (Cache.redisCache rdb :: rt.2)).2)
      else ((v, has), Cache.redisCache rdb :: rt.2)
    else
      let v : Envelope := match g with
        | Except.ok e => e
        | Except.error _ => zeroValue
      ((decodeString v.Data, has), Cache.redisCache rdb :: next)

/-- `GetString(path)`: the value of `HasGetString`, the found flag dropped. -/
def GetString (now : Int) (path : String) (chain : List Cache) : String × List Cache :=
  let r := HasGetString now path chain
  (r.1.1, r.2)

/-- `Has(path)` issued on the head of the chain (`levelDBCache.Has`,
`redisCache.Has`). -/
def Has (now : Int) (path : String) : List Cache → Bool × List Cache
  | [] => (false, [])
  | Cache.levelDBCache db :: next =>
    let r := hasGet now path db
    if r.1.2 = false ∧ next.isEmpty = false then
      let rn := Has now path next
      (rn.1, Cache.levelDBCache r.2 :: rn.2)
    else (r.1.2, Cache.levelDBCache r.2 :: next)
  | Cache.redisCache rdb :: next =>
    let has : Bool := decide (rdb.Exists now [path] > 1)
    if has = false ∧ next.isEmpty = false then
      let rn := Has now path next
      (rn.1, Cache.redisCache rdb :: rn.2)
    else (has, Cache.redisCache rdb :: next)

/-- The loop of `levelDBCache.Del`: every key is deleted in turn and the
first error is kept. -/
def deleteEach : Option Error → List String → LevelDB → Option Error × LevelDB
  | err, [], db => (err, db)
  | err, key :: keys, db =>
    let r := db.Delete key
    deleteEach (if err = none ∧ r.1 ≠ none then r.1 else err) keys r.2

/-- `Del(keys...)` issued on the head of the chain (`levelDBCache.Del`,
`redisCache.Del`). -/
def Del (keys : List String) : List Cache → Option Error × List Cache
  | [] => (none, [])
  | Cache.levelDBCache db :: next =>
    let r := deleteEach none keys db
    if next.isEmpty = false then
      let rn := Del keys next
      (rn.1, Cache.levelDBCache r.2 :: rn.2)
    else (r.1, Cache.levelDBCache r.2 :: next)
  | Cache.redisCache rdb :: next =>
    let r := rdb.Del keys
    if next.isEmpty = false then
      let rn := Del keys next
      (rn.1, Cache.redisCache r.2 :: rn.2)
    else
      let p := r.2.Publish connectChannel (Join keys ",")
      (p.1, Cache.redisCache p.2 :: next)

/-- The handler subscribed to `connectChannel` by `redisDriver.NewCache`, for
the redis tier at position `i` of `chain`: an empty payload is ignored,
otherwise `inst.previous.Del(strings.Split(data, ",")...)` runs on the tier
at position `i - 1`, whose `next` links lead on to the end of the chain. -/
def onInvalidation (chain : List Cache) (i : Nat) (data : String) : List Cache :=
  if data = "" then chain
  else
    match i with
    | 0 => chain
    | j + 1 => chain.take j ++ (Del (Split data ',') (chain.drop j)).2

/-! ## Pattern scans -/

/-- Go map assignment `m[key] = value`, the map kept as an association list. -/
def mapSet (m : List (String × String)) (key value : String) : List (String × String) :=
  (key, value) :: m.filter (fun p => p.1 ≠ key)

/-- The loop of `levelDBCache.filter` over the entries the iterator yields:
matching entries are put into the map, and the loop stops once a positive `max`
is reached. -/
def filterLoop (marshal : Envelope → String) (filter : String → Envelope → Bool) (max : Int) :
    List (String × String) → List (String × Envelope) → List (String × String)
  | v, [] => v
  | v, (key, value) :: rest =>
    let v1 := if filter key value then mapSet v key (marshal value) else v
    if max > 0 ∧ (v1.length : Int) ≥ max then v1
    else filterLoop marshal filter max v1 rest

/-- Insertion of an entry into a list of entries that is in key order. -/
def insertByKey (p : String × Envelope) : List (String × Envelope) → List (String × Envelope)
  | [] => [p]
  | q :: rest => if q.1 < p.1 then q :: insertByKey p rest else p :: q :: rest

/-- The entries in the order `db.NewIterator(nil, nil)` yields them: ascending
keys under the bytewise comparator, which on UTF-8 text is the lexicographic
order of the characters. -/
def iterOrder (l : List (String × Envelope)) : List (String × Envelope) :=
  l.foldr insertByKey []

/-- `levelDBCache.filter`: the iterator visits the table in key order; `marshal`
is the external JSON encoding of the stored envelope, `iter.Error()` is the
fault of `iterate`. -/
def filter (marshal : Envelope → String) (db : LevelDB) (filter : String → Envelope → Bool)
    (limit : List Int) : List (String × String) × Option Error :=
  let max : Int := limit.headD 0
  (filterLoop marshal filter max [] (iterOrder db.data), db.fault DBOp.iterate "")

/-- The inner loop of `redisCache.contains`: every key returned by SCAN is read
back; a failing read aborts with `nil, err`, and only data that decodes into a
Go string is put into the map. -/
def containsLoop (rdb : Redis) (now : Int) :
    List (String × String) → List String → List (String × String) × Option Error
  | values, [] => (values, none)
  | values, key :: rest =>
    match rdb.Get now key with
    | Except.error e => ([], some e)
    | Except.ok env =>
      match env.Data with
      | Value.str d => containsLoop rdb now (mapSet values key d) rest
      | Value.int _ => containsLoop rdb now values rest

/-- `redisCache.contains`: the SCAN iteration is taken as one pass over the
live keys that match the glob pattern; `glob` is the external pattern matcher
of the Redis server (pattern first, key second). -/
def contains (glob : String → String → Bool) (now : Int) (pattern : String)
    (_limit : List Int) (rdb : Redis) : List (String × String) × Option Error :=
  match rdb.fault RedisCmd.scan with
  | some e => ([], some e)
  | none =>
    containsLoop rdb now []
      ((rdb.data.filter (fun p => (rdb.live now p.1).isSome && glob pattern p.1)).map Prod.fst)

/-- `bytes.HasPrefix(key, keyword)`. -/
def bytesHasPrefix (key keyword : String) : Bool := keyword.data.isPrefixOf key.data

/-- `bytes.HasSuffix(key, keyword)`. -/
def bytesHasSuffix (key keyword : String) : Bool := keyword.data.isSuffixOf key.data

/-- `bytes.Contains(key, keyword)`. -/
def bytesContains (key keyword : String) : Bool :=
  key.data.tails.any (fun t => keyword.data.isPrefixOf t)

/-- Common shape of `HasPrefix`, `HasSuffix` and `Contains` of both drivers: the
local scan (`pred` on an ldb tier, the glob `pattern` on a redis tier), and the
same call on the next tier when the local scan gave no error and no entry. -/
def scanChain (marshal : Envelope → String) (glob : String → String → Bool)
    (pred : String → String → Bool) (pattern : String → String)
    (now : Int) (s : String) (limit : List Int) :
    List Cache → List (String × String) × Option Error
  | [] => ([], none)
  | Cache.levelDBCache db :: next =>
    let r := filter marshal db (fun key _ => pred key s) limit
    if r.2 = none ∧ r.1.length = 0 ∧ next.isEmpty = false then
      scanChain marshal glob pred pattern now s limit next
    else r
  | Cache.redisCache rdb :: next =>
    let r := contains glob now (pattern s) limit rdb
    if r.2 = none ∧ r.1.length = 0 ∧ next.isEmpty = false then
      scanChain marshal glob pred pattern now s limit next
    else r

/-- `HasPrefix(s, limit...)` issued on the head of the chain. -/
def HasPrefix (marshal : Envelope → String) (glob : String → String → Bool)
    (now : Int) (s : String) (limit : List Int) (chain : List Cache) :
    List (String × String) × Option Error :=
  scanChain marshal glob bytesHasPrefix (fun s => s ++ "*") now s limit chain

/-- `HasSuffix(s, limit...)` issued on the head of the chain. -/
def HasSuffix (marshal : Envelope → String) (glob : String → String → Bool)
    (now : Int) (s : String) (limit : List Int) (chain : List Cache) :
    List (String × String) × Option Error :=
  scanChain marshal glob bytesHasSuffix (fun s => "*" ++ s) now s limit chain

/-- `Contains(s, limit...)` issued on the head of the chain. -/
def Contains (marshal : Envelope → String) (glob : String → String → Bool)
    (now : Int) (s : String) (limit : List Int) (chain : List Cache) :
    List (String × String) × Option Error :=
  scanChain marshal glob bytesContains (fun s => "*" ++ s ++ "*") now s limit chain

/-! ## Counters -/

/-- Go `int` arithmetic on a 64-bit platform: the result wrapped into the range
of a signed 64-bit integer. -/
def wrap64 (x : Int) : Int :=
  (x + 9223372036854775808) % 18446744073709551616 - 9223372036854775808

/-- Value of a run of decimal digits, `none` when another character occurs. -/
def digitsValue : Nat → List Char → Option Nat
  | n, [] => some n
  | n, c :: cs => if c.isDigit then digitsValue (10 * n + (c.toNat - 48)) cs else none

/-- `jsonparser.ParseInt` applied to the raw bytes of the `data` field, its
error dropped: an optional minus sign and decimal digits within the 64-bit
range, `0` for anything else. -/
def ParseInt : Value → Int
  | Value.int n => if -9223372036854775808 ≤ n ∧ n < 9223372036854775808 then n else 0
  | Value.str s =>
    match s.data with
    | [] => 0
    | '-' :: cs =>
      match digitsValue 0 cs with
      | some n => if n ≤ 9223372036854775808 then -(n : Int) else 0
      | none => 0
    | cs =>
      match digitsValue 0 cs with
      | some n => if n < 9223372036854775808 then (n : Int) else 0
      | none => 0

/-- Decoding of the `data` field into a Go `int` field (`redisCache.HasGetInt`):
a JSON string does not decode into an integer and leaves the zero value. -/
def decodeInt : Value → Int
  | Value.int n => if -9223372036854775808 ≤ n ∧ n < 9223372036854775808 then n else 0
  | Value.str _ => 0

/-- `HasGetInt(path)` issued on the head of the chain (`levelDBCache.HasGetInt`,
`redisCache.HasGetInt`). -/
def HasGetInt (now : Int) (path : String) : List Cache → (Int × Bool) × List Cache
  | [] => ((0, false), [])
  | Cache.levelDBCache db :: next =>
    let r := hasGet now path db
    if r.1.2 then
      ((ParseInt (r.1.1.getD zeroValue).Data, r.1.2), Cache.levelDBCache r.2 :: next)
    else if next.isEmpty = false then
      let rv := HasGetInt now path next
      let v := rv.1.1
      let rt := TTL now path rv.2
      let ttl := rt.1.1
      let has := rt.1.2
      if has then
        ((v, has), (Set now path (Value.int v) [ttl] (Cache.levelDBCache r.2 :: rt.2)).2)
      else ((v, has), Cache.levelDBCache r.2 :: rt.2)
    else ((0, r.1.2), Cache.levelDBCache r.2 :: next)
  | Cache.redisCache rdb :: next =>
    let g := rdb.Get now path
    let has : Bool := match g with
      | Except.ok _ => true
      | Except.error _ => false
    if has = false ∧ next.isEmpty = false then
      let rv := HasGetInt now path next
      let v := rv.1.1
      let rt := TTL now path rv.2
      let ttl := rt.1.1
      let has := rt.1.2
      if has then
        ((v, has), (Set now path (Value.int v) [ttl] (Cache.redisCache rdb :: rt.2)).2)
      else ((v, has), Cache.redisCache rdb :: rt.2)
    else
      let v : Envelope := match g with
        | Except.ok e => e
        | Except.error _ => zeroValue
      ((decodeInt v.Data, has), Cache.redisCache rdb :: next)

/-- `GetInt(path)`: the value of `HasGetInt`, the found flag dropped. -/
def GetInt (now : Int) (path : String) (chain : List Cache) : Int × List Cache :=
  let r := HasGetInt now path chain
  (r.1.1, r.2)

/-- `levelDBCache.incr`: read the counter, add the step, store it with `Set`
without expiration argument. -/
def incr (now : Int) (key : String) (step : Int) (chain : List Cache) :
    (Int × Option Error) × List Cache :=
  let g := GetInt now key chain
  let v := wrap64 (g.1 + step)
  let r := Set now key (Value.int v) [] g.2
  ((v, r.1), r.2)

/-- `IncrBy(key, step)` issued on the head of the chain (`levelDBCache.IncrBy`,
`redisCache.IncrBy`).  `rincr` is the INCRBY command of the Redis server, which
acts on raw numeric strings outside the envelope format and is external. -/
def IncrBy (rincr : Redis → Int → String → Int → (Int × Option Error) × Redis)
    (now : Int) (key : String) (step : Int) :
    List Cache → (Int × Option Error) × List Cache
  | [] => ((0, none), [])
  | Cache.levelDBCache db :: next =>
    if next.isEmpty = false then
      let r := IncrBy rincr now key step next
      (r.1, Cache.levelDBCache db :: r.2)
    else incr now key step (Cache.levelDBCache db :: next)
  | Cache.redisCache rdb :: next =>
    if next.isEmpty = false then
      let r := IncrBy rincr now key step next
      (r.1, Cache.redisCache rdb :: r.2)
    else
      let r := rincr rdb now key step
      (r.1, Cache.redisCache r.2 :: next)

/-- `Incr(key)` issued on the head of the chain (`levelDBCache.Incr`,
`redisCache.Incr`); the INCR command of the server is its INCRBY with step 1. -/
def Incr (rincr : Redis → Int → String → Int → (Int × Option Error) × Redis)
    (now : Int) (key : String) : List Cache → (Int × Option Error) × List Cache
  | [] => ((0, none), [])
  | Cache.levelDBCache db :: next =>
    if next.isEmpty = false then
      let r := Incr rincr now key next
      (r.1, Cache.levelDBCache db :: r.2)
    else incr now key 1 (Cache.levelDBCache db :: next)
  | Cache.redisCache rdb :: next =>
    if next.isEmpty = false then
      let r := Incr rincr now key next
      (r.1, Cache.redisCache rdb :: r.2)
    else
      let r := rincr rdb now key 1
      (r.1, Cache.redisCache r.2 :: next)

/-- The `float64` side of the drivers, all of it external: the type `F` of the
values with its zero and addition, `jsonparser.ParseFloat` on the raw data (`0`
on error), the decoding of the `data` field into a Go `float64` field, the JSON
encoding of a float handed to `Set`, and the INCRBYFLOAT command of the server. -/
structure Float64Ops (F : Type) where
  zero : F
  add : F → F → F
  ParseFloat : Value → F
  decodeFloat : Value → F
  toValue : F → Value
  IncrByFloat : Redis → Int → String → F → (F × Option Error) × Redis

/-- `HasGetFloat(path)` issued on the head of the chain
(`levelDBCache.HasGetFloat`, `redisCache.HasGetFloat`). -/
def HasGetFloat {F : Type} (fl : Float64Ops F) (now : Int) (path : String) :
    List Cache → (F × Bool) × List Cache
  | [] => ((fl.zero, false), [])
  | Cache.levelDBCache db :: next =>
    let r := hasGet now path db
    if r.1.2 then
      ((fl.ParseFloat (r.1.1.getD zeroValue).Data, r.1.2), Cache.levelDBCache r.2 :: next)
    else if next.isEmpty = false then
      let rv := HasGetFloat fl now path next
      let v := rv.1.1
      let rt := TTL now path rv.2
      let ttl := rt.1.1
      let has := rt.1.2
      if has then
        ((v, has), (Set now path (fl.toValue v) [ttl] (Cache.levelDBCache r.2 :: rt.2)).2)
      else ((v, has), Cache.levelDBCache r.2 :: rt.2)
    else ((fl.zero, r.1.2), Cache.levelDBCache r.2 :: next)
  | Cache.redisCache rdb :: next =>
    let g := rdb.Get now path
    let has : Bool := match g with
      | Except.ok _ => true
      | Except.error _ => false
    if has = false ∧ next.isEmpty = false then
      let rv := HasGetFloat fl now path next
      let v := rv.1.1
      let rt := TTL now path rv.2
      let ttl := rt.1.1
      let has := rt.1.2
      if has then
        ((v, has), (Set now path (fl.toValue v) [ttl] (Cache.redisCache rdb :: rt.2)).2)
      else ((v, has), Cache.redisCache rdb :: rt.2)
    else
      let v : Envelope := match g with
        | Except.ok e => e
        | Except.error _ => zeroValue
      ((fl.decodeFloat v.Data, has), Cache.redisCache rdb :: next)

/-- `GetFloat(path)`: the value of `HasGetFloat`, the found flag dropped. -/
def GetFloat {F : Type} (fl : Float64Ops F) (now : Int) (path : String)
    (chain : List Cache) : F × List Cache :=
  let r := HasGetFloat fl now path chain
  (r.1.1, r.2)

/-- `IncrByFloat(key, step)` issued on the head of the chain
(`levelDBCache.IncrByFloat`, `redisCache.IncrByFloat`). -/
def IncrByFloat {F : Type} (fl : Float64Ops F) (now : Int) (key : String) (step : F) :
    List Cache → (F × Option Error) × List Cache
  | [] => ((fl.zero, none), [])
  | Cache.levelDBCache db :: next =>
    if next.isEmpty = false then
      let r := IncrByFloat fl now key step next
      (r.1, Cache.levelDBCache db :: r.2)
    else
      let g := GetFloat fl now key (Cache.levelDBCache db :: next)
      let v := fl.add g.1 step
      let r := Set now key (fl.toValue v) [] g.2
      ((v, r.1), r.2)
  | Cache.redisCache rdb :: next =>
    if next.isEmpty = false then
      let r := IncrByFloat fl now key step next
      (r.1, Cache.redisCache rdb :: r.2)
    else
      let r := fl.IncrByFloat rdb now key step
      (r.1, Cache.redisCache r.2 :: next)

/-! ## Chain builder (`cache.go`) -/

/-- `cache.Config`; the options bag is opaque and stands for the backend to open. -/
structure Config where
  Driver : String
  Options : String
  deriving DecidableEq, Repr

/-- A constructed tier as `cache.go` uses it: the backend connection it owns,
the answer of `RemoteSupport()` and the result its `Close()` gives, which is
the result of closing the backend (`l.db.Close()`, `r.rdb.Close()`). -/
structure Handle where
  backend : String
  RemoteSupport : Bool
  closeErr : Option Error
  deriving DecidableEq, Repr

/-- Outcome of a driver's `NewCache(options)`: a tier; an error with a nil
tier; or an error together with an instance (`redisDriver.NewCache` returns
`inst, err` when the subscription fails). -/
inductive Built where
  | ok (h : Handle)
  | failed (err : Error)
  | failedWith (h : Handle) (err : Error)
  deriving DecidableEq, Repr

/-- A registered driver: its `NewCache`. -/
structure Driver where
  NewCache : String → Built

/-- Calls that open or close a backend, in the order they are made. -/
inductive Call where
  | NewCache (c : Config)
  | Close (h : Handle)
  deriving DecidableEq, Repr

/-- `cache.NewCache(c)`: the driver registered under `c.Driver` builds the tier;
`driverMap` is the registry. -/
def NewCache (driverMap : String → Option Driver) (c : Config) : Built :=
  match driverMap c.Driver with
  | none => Built.failed (Error.unregistered c.Driver)
  | some driver => driver.NewCache c.Options

/-- State of the construction loop of `NewMultiLevelCache`. -/
structure LoopState where
  caches : List Handle
  newErr : Option Error
  calls : List Call

/-- The construction loop of `NewMultiLevelCache` from position `index` on,
`n` being `len(configs)`. -/
def buildLoop (driverMap : String → Option Driver) (n : Nat) :
    Nat → List Config → List Handle → List Call → LoopState
  | _, [], caches, calls => ⟨caches, none, calls⟩
  | index, config :: rest, caches, calls =>
    match NewCache driverMap config with
    | Built.failed err => ⟨caches, some err, calls ++ [Call.NewCache config]⟩
    | Built.failedWith _ err => ⟨caches, some err, calls ++ [Call.NewCache config]⟩
    | Built.ok cache =>
      if index = n - 1 ∧ cache.RemoteSupport = false then
        ⟨caches ++ [cache], some Error.config, calls ++ [Call.NewCache config]⟩
      else
        buildLoop driverMap n (index + 1) rest (caches ++ [cache])
          (calls ++ [Call.NewCache config])

/-- Result of `NewMultiLevelCache`: the returned `Cache` (the chain, whose head
is the handle given to the caller; `none` is nil), the returned error and the
backend calls made. -/
structure BuildResult where
  cache : Option (List Handle)
  err : Option Error
  calls : List Call

/-- `NewMultiLevelCache(configs)`.  On success the tiers are linked in order, so
that the chain is the list `caches` and the returned handle is its head. -/
def NewMultiLevelCache (driverMap : String → Option Driver) (configs : List Config) :
    BuildResult :=
  if configs.length < 2 then ⟨none, some Error.config, []⟩
  else
    let st := buildLoop driverMap configs.length 0 configs [] []
    match st.newErr with
    | some newErr => ⟨none, some newErr, st.calls ++ st.caches.map Call.Close⟩
    | none => ⟨some st.caches, none, st.calls⟩

/-- Backend connections a construction leaves open: that of the tier, also
when the driver returns the tier together with an error. -/
def Built.opened : Built → List Handle
  | Built.ok h => [h]
  | Built.failed _ => []
  | Built.failedWith h _ => [h]

/-- Connections opened by the logged constructions. -/
def openedBy (driverMap : String → Option Driver) : List Call → List Handle
  | [] => []
  | Call.NewCache c :: rest => (NewCache driverMap c).opened ++ openedBy driverMap rest
  | Call.Close _ :: rest => openedBy driverMap rest

/-- Connections opened by the logged constructions and closed by no logged call. -/
def leaked (driverMap : String → Option Driver) (calls : List Call) : List Handle :=
  (openedBy driverMap calls).filter (fun h => decide (Call.Close h ∉ calls))

/-- `Close()` called on a tier, given as the chain that starts at it
(`levelDBCache.Close`, `redisCache.Close`): the tier closes its own backend and
returns the result. -/
def Close : List Handle → Option Error × List Call
  | [] => (none, [])
  | h :: _ => (h.closeErr, [Call.Close h])

/-! ## Helper definitions and the concrete chains used below -/

/-- A healthy embedded store: no backend call fails. -/
def healthyDB : DBOp → String → Option Error := fun _ _ => none

/-- A healthy Redis connection: no command fails. -/
def healthyRedis : RedisCmd → Option Error := fun _ => none

/-- A Redis connection on which every `SET` fails with the given error. -/
def failingSet (e : Error) : RedisCmd → Option Error
  | RedisCmd.set => some e
  | _ => none

/-- Chain [ldb, ldb, redis] at time 105: the head tier is empty, the second
tier and Redis hold the entry that `Set("k", "v", 10)` issued on the second tier
at time 100 wrote. -/
def promotionChain : List Cache :=
  Cache.levelDBCache ⟨[], healthyDB⟩ ::
    (Set 100 "k" (Value.str "v") [10]
      [Cache.levelDBCache ⟨[], healthyDB⟩, Cache.redisCache ⟨[], healthyRedis, []⟩]).2

/-- The tier after the local part of `Del`. -/
def Cache.deleteLocal (keys : List String) : Cache → Cache
  | Cache.levelDBCache db => Cache.levelDBCache (deleteEach none keys db).2
  | Cache.redisCache rdb => Cache.redisCache (rdb.Del keys).2

/-- The chain of the test: an empty healthy [ldb, redis]. -/
def testChain : List Cache :=
  [Cache.levelDBCache ⟨[], healthyDB⟩, Cache.redisCache ⟨[], healthyRedis, []⟩]

/-- The test chain after `Set("foo1", "bar1")` at time 100 and `Del("foo1")`. -/
def afterSetDel : Option Error × List Cache :=
  Del ["foo1"] (Set 100 "foo1" (Value.str "bar1") [] testChain).2

/-- An embedded store whose deletion of the key "a" fails with error 1. -/
def failingDelete : DBOp → String → Option Error
  | DBOp.delete, key => if key = "a" then some (Error.backend 1) else none
  | _, _ => none

/-- A Redis connection on which every `DEL` fails with error 2. -/
def failingDel : RedisCmd → Option Error
  | RedisCmd.del => some (Error.backend 2)
  | _ => none

/-- The ldb tier used below: it holds "a" and "b" and cannot delete "a". -/
def faultyTier : LevelDB :=
  ⟨[("a", ⟨10, 100, Value.str "x"⟩), ("b", ⟨10, 100, Value.str "y"⟩)], failingDelete⟩

/-- A chain [ldb, redis] in which both tiers hold "foo1" and nothing was published. -/
def linkedChain : List Cache :=
  (Set 100 "foo1" (Value.str "bar1") [10] testChain).2

/-- A lone redis tier that holds a live entry for "k" (expiry 110). -/
def redisHoldingK : List Cache :=
  [Cache.redisCache ⟨[("k", ⟨⟨10, 100, Value.str "v"⟩, some 110⟩)], healthyRedis, []⟩]

/-- A lone ldb tier that holds a live entry for "k" (written at 100, ttl 10). -/
def ldbHoldingK : List Cache :=
  [Cache.levelDBCache ⟨[("k", ⟨10, 100, Value.str "v"⟩)], healthyDB⟩]

/-- Keys of the local table of an ldb tier that satisfy the scan predicate. -/
def localKeys (db : LevelDB) (pred : String → String → Bool) (s : String) : List String :=
  (db.data.map Prod.fst).filter (fun key => pred key s)

/-- Outcome of a scan issued on an ldb tier, `keys` being the matching local keys,
`r` the result and `rnext` the result of the same call on the next tier: with a
local match the key set of the result is exactly `keys`; without one the result
is that of the next tier, or the empty map when there is no next tier. -/
def LocalThenNext (keys : List String) (next : List Cache)
    (r rnext : List (String × String) × Option Error) : Prop :=
  (keys ≠ [] → r.2 = none ∧ ∀ k, k ∈ r.1.map Prod.fst ↔ k ∈ keys) ∧
  (keys = [] → next ≠ [] → r = rnext) ∧
  (keys = [] → next = [] → r = ([], none))

/-- A stand-in for the JSON encoding of an envelope: the text of its data. -/
def dataText (e : Envelope) : String := ParseString e.Data

/-- A pattern matcher that accepts every key. -/
def globAny : String → String → Bool := fun _ _ => true

/-- An ldb tier holding the keys "foo1", "foo2" and "bar". -/
def scanTier : LevelDB :=
  ⟨[("foo1", ⟨10, 100, Value.str "a"⟩), ("bar", ⟨10, 100, Value.str "b"⟩),
    ("foo2", ⟨10, 100, Value.str "c"⟩)], healthyDB⟩

/-- A Redis server that refuses every counter command with error 9. -/
def refusingIncrBy : Redis → Int → String → Int → (Int × Option Error) × Redis :=
  fun rdb _ _ _ => ((0, some (Error.backend 9)), rdb)

/-- The empty ldb tier without next tier (`NewCache` with driver "ldb"). -/
def loneLdb : List Cache := [Cache.levelDBCache ⟨[], healthyDB⟩]

/-- The ldb driver as the builder sees it: it opens the store at the given
path, fails with error 4 on the empty path, and its tiers do not support remote
messages. -/
def ldbDriver : Driver :=
  ⟨fun options =>
    if options = "" then Built.failed (Error.backend 4)
    else Built.ok ⟨"ldb:" ++ options, false, none⟩⟩

/-- The redis driver as the builder sees it: the server "down" cannot be
reached (the ping fails with error 3 and `nil, err` is returned); the server
"nosub" answers the ping and refuses the subscription (error 6), so that
`inst, err` is returned with the client open; the connection to the server
"flaky" fails to close (error 5); its tiers support remote messages. -/
def redisDriver : Driver :=
  ⟨fun options =>
    if options = "down" then Built.failed (Error.backend 3)
    else if options = "nosub" then
      Built.failedWith ⟨"redis:nosub", true, none⟩ (Error.backend 6)
    else Built.ok ⟨"redis:" ++ options, true,
      if options = "flaky" then some (Error.backend 5) else none⟩⟩

/-- The registry after the two drivers registered themselves. -/
def registry : String → Option Driver := fun name =>
  if name = "ldb" then some ldbDriver
  else if name = "redis" then some redisDriver
  else none

/-- Floats restricted to whole numbers, with a server that refuses INCRBYFLOAT. -/
def wholeFloats : Float64Ops Int :=
  ⟨0, fun a b => a + b, ParseInt, decodeInt, Value.int,
    fun rdb _ _ _ => ((0, some (Error.backend 9)), rdb)⟩

/-- An ldb tier holding a live counter 7 for "k". -/
def staleHead : Cache :=
  Cache.levelDBCache ⟨[("k", ⟨10, 100, Value.int 7⟩)], healthyDB⟩

/-! ## Facts about the backend tables -/

/-- Looking a key up in a table filtered on the keys. -/
theorem lookup_filter {β : Type} (P : String → Bool) (key : String) (l : List (String × β)) :
    (l.filter (fun p => P p.1)).lookup key = if P key = true then l.lookup key else none := by
  induction l with
  | nil => simp
  | cons p l ih =>
    obtain ⟨a, b⟩ := p
    by_cases hab : key = a
    · subst hab
      cases hp : P key
      · rw [List.filter_cons]
        simp only [hp, Bool.false_eq_true, if_false] at ih ⊢
        exact ih
      · rw [List.filter_cons]
        simp only [hp, if_true, List.lookup_cons, beq_self_eq_true]
    · have hb : (key == a) = false := by simpa using hab
      cases hp : P a
      · rw [List.filter_cons]
        simp only [hp, Bool.false_eq_true, if_false, List.lookup_cons, hb]
        exact ih
      · rw [List.filter_cons]
        simp only [hp, if_true, List.lookup_cons, hb]
        exact ih

/-- A key that was filtered out is not found. -/
theorem lookup_filter_ne {β : Type} (key : String) (l : List (String × β)) :
    (l.filter (fun p => decide (p.1 ≠ key))).lookup key = none := by
  rw [lookup_filter (fun a => decide (a ≠ key)) key l]
  simp

/-- Filtering out one key leaves the lookup of any other key alone. -/
theorem lookup_filter_ne_other {β : Type} (key k : String) (h : k ≠ key) (l : List (String × β)) :
    (l.filter (fun p => decide (p.1 ≠ key))).lookup k = l.lookup k := by
  rw [lookup_filter (fun a => decide (a ≠ key)) k l]
  simp [h]

/-- The entry put at the front of the table is the one found. -/
theorem lookup_put {β : Type} (key : String) (v : β) (l : List (String × β)) :
    ((key, v) :: l.filter (fun p => decide (p.1 ≠ key))).lookup key = some v := by
  simp [List.lookup_cons]

/-- None of the keys that were filtered out is found. -/
theorem lookup_filter_mem {β : Type} (key : String) (keys : List String) (hk : key ∈ keys)
    (l : List (String × β)) :
    (l.filter (fun p => decide (p.1 ∉ keys))).lookup key = none := by
  rw [lookup_filter (fun a => decide (a ∉ keys)) key l]
  simp [hk]

/-- Keys outside the filtered list are found as before. -/
theorem lookup_filter_not_mem {β : Type} (key : String) (keys : List String) (hk : key ∉ keys)
    (l : List (String × β)) :
    (l.filter (fun p => decide (p.1 ∉ keys))).lookup key = l.lookup key := by
  rw [lookup_filter (fun a => decide (a ∉ keys)) key l]
  simp [hk]

/-! ## Write then read on a chain `[ldb, redis]` -/

/-- The chain after a successful `Set` on `[ldb, redis]`. -/
theorem Set_two_ok (db : LevelDB) (rdb : Redis) (k : String) (v : Value)
    (expiration : List Int) (t0 : Int)
    (hset : (Set t0 k v expiration [Cache.levelDBCache db, Cache.redisCache rdb]).1 = none) :
    (Set t0 k v expiration [Cache.levelDBCache db, Cache.redisCache rdb]).2 =
      [Cache.levelDBCache (db.Put k ⟨expiration.headD 0, t0, v⟩).2,
       Cache.redisCache (rdb.Set t0 k ⟨expiration.headD 0, t0, v⟩ (expiration.headD 0)).2] ∧
    db.fault DBOp.put k = none ∧ rdb.fault RedisCmd.set = none := by
  cases hp : db.fault DBOp.put k with
  | some e => simp [Set, LevelDB.Put, hp] at hset
  | none =>
    cases hs : rdb.fault RedisCmd.set with
    | some e => simp [Set, LevelDB.Put, hp, Redis.Set, hs] at hset
    | none => simp [Set, LevelDB.Put, hp, Redis.Set, hs]

/-- C1 as stated fails on the tail tier: with ttl = 1999999 ns go-redis sends
PX 1, so the key written at 100 is gone from Redis once the server clock reads
2 ms; at t = t0 + ttl every hypothesis of the claim holds, the head tier
returns ("v", true) and the tail tier returns ("", false). -/
theorem set_then_HasGetString_counterexample :
    (0 : Int) < 1999999 ∧ (100 : Int) ≤ 2000099 ∧ (2000099 : Int) ≤ 100 + 1999999 ∧
    (Set 100 "k" (Value.str "v") [1999999]
      [Cache.levelDBCache ⟨[], healthyDB⟩, Cache.redisCache ⟨[], healthyRedis, []⟩]).1 = none ∧
    (HasGetString 2000099 "k" (Set 100 "k" (Value.str "v") [1999999]
      [Cache.levelDBCache ⟨[], healthyDB⟩, Cache.redisCache ⟨[], healthyRedis, []⟩]).2).1
        = ("v", true) ∧
    (HasGetString 2000099 "k" ((Set 100 "k" (Value.str "v") [1999999]
      [Cache.levelDBCache ⟨[], healthyDB⟩,
       Cache.redisCache ⟨[], healthyRedis, []⟩]).2.drop 1)).1 = ("", false) ∧
    (HasGetString 2000099 "k" ((Set 100 "k" (Value.str "v") [1999999]
      [Cache.levelDBCache ⟨[], healthyDB⟩,
       Cache.redisCache ⟨[], healthyRedis, []⟩]).2.drop 1)).1 ≠ ("v", true) := by
  decide

/-- C1 amended: on a chain [ldb, redis], after Set(k, v, ttl) with ttl > 0 has
succeeded at time t0, HasGetString(k) at any time t with t0 <= t <= t0 + ttl
returns (v, true) when issued on the head tier, and also when issued on the
tail tier if ttl is shorter than one millisecond or a whole number of
milliseconds, which is when the expiry go-redis sends is not shorter than ttl
(backend reads of k not failing). -/
theorem set_then_HasGetString (db : LevelDB) (rdb : Redis) (k v : String) (ttl t0 t : Int)
    (httl : 0 < ttl) (_h0 : t0 ≤ t) (h1 : t ≤ t0 + ttl)
    (hget : db.fault DBOp.get k = none) (hrget : rdb.fault RedisCmd.get = none)
    (hset : (Set t0 k (Value.str v) [ttl]
      [Cache.levelDBCache db, Cache.redisCache rdb]).1 = none) :
    (HasGetString t k (Set t0 k (Value.str v) [ttl]
      [Cache.levelDBCache db, Cache.redisCache rdb]).2).1 = (v, true) ∧
    ((ttl < millisecond ∨ ttl % millisecond = 0) →
      (HasGetString t k ((Set t0 k (Value.str v) [ttl]
        [Cache.levelDBCache db, Cache.redisCache rdb]).2.drop 1)).1 = (v, true)) := by
  obtain ⟨hc, hp, hs⟩ := Set_two_ok db rdb k (Value.str v) [ttl] t0 hset
  rw [hc]
  have hlt : ¬ (t > t0 + ttl) := not_lt.mpr h1
  constructor
  · simp [HasGetString, hasGet, LevelDB.Get, LevelDB.Put, hp, hget, lookup_put, httl, hlt,
      ParseString]
  · intro hms
    have hexp : ∃ e : Int, t ≤ e ∧
        (if usePrecise ttl = true then some (expiryAfter t0 (formatMs ttl))
          else some (expiryAfter t0 (formatSec ttl * 1000))) = some e := by
      unfold millisecond at hms
      by_cases hprec : usePrecise ttl = true
      · refine ⟨_, ?_, if_pos hprec⟩
        unfold expiryAfter formatMs millisecond
        split_ifs <;> omega
      · refine ⟨_, ?_, if_neg hprec⟩
        have hsec : ¬ (ttl < second ∨ ttl % second ≠ 0) := by
          simpa [usePrecise] using hprec
        unfold second at hsec
        unfold expiryAfter formatSec millisecond second
        split_ifs <;> omega
    obtain ⟨e, hte, he⟩ := hexp
    simp [HasGetString, Redis.Get, Redis.Set, hs, hrget, Redis.live, lookup_put, httl, he, hte,
      decodeString]

/-- Instance of C1 amended: empty healthy chain, key "k", value "v", ttl 10,
written at 100 and read at 105. -/
theorem set_then_HasGetString_witness :
    (HasGetString 105 "k" (Set 100 "k" (Value.str "v") [10]
      [Cache.levelDBCache ⟨[], healthyDB⟩, Cache.redisCache ⟨[], healthyRedis, []⟩]).2).1
        = ("v", true) ∧
    (HasGetString 105 "k" ((Set 100 "k" (Value.str "v") [10]
      [Cache.levelDBCache ⟨[], healthyDB⟩,
       Cache.redisCache ⟨[], healthyRedis, []⟩]).2.drop 1)).1 = ("v", true) :=
  (fun h => ⟨h.1, h.2 (Or.inl (by decide))⟩)
    (set_then_HasGetString ⟨[], healthyDB⟩ ⟨[], healthyRedis, []⟩ "k" "v" 10 100 105
      (by decide) (by decide) (by decide) rfl rfl rfl)

/-- On a local miss the value returned by a `levelDBCache` is the value its
next tier returns. -/
theorem HasGetString_ldb_miss_value (now : Int) (path : String) (db : LevelDB) (c : Cache)
    (next : List Cache) (hmiss : (hasGet now path db).1.2 = false) :
    (HasGetString now path (Cache.levelDBCache db :: c :: next)).1.1
      = (HasGetString now path (c :: next)).1.1 := by
  rw [HasGetString]
  simp only [hmiss, Bool.false_eq_true, if_false, List.isEmpty_cons, if_true]
  split <;> rfl

/-- A tail `redisCache` whose backend read succeeds returns the decoded data. -/
theorem HasGetString_redis_tail_hit (now : Int) (path : String) (rdb : Redis) (e : Envelope)
    (hg : rdb.Get now path = Except.ok e) :
    HasGetString now path [Cache.redisCache rdb]
      = ((decodeString e.Data, true), [Cache.redisCache rdb]) := by
  simp [HasGetString, hg]

/-- C2: on a chain [ldb, redis], Set(k, v) without expiration argument followed by
GetString(k) on the head returns v (backend reads of k not failing). -/
theorem set_no_expiration_then_GetString (db : LevelDB) (rdb : Redis) (k v : String)
    (t0 t : Int) (_h0 : t0 ≤ t)
    (hget : db.fault DBOp.get k = none) (hrget : rdb.fault RedisCmd.get = none)
    (hset : (Set t0 k (Value.str v) []
      [Cache.levelDBCache db, Cache.redisCache rdb]).1 = none) :
    (GetString t k (Set t0 k (Value.str v) []
      [Cache.levelDBCache db, Cache.redisCache rdb]).2).1 = v := by
  obtain ⟨hc, hp, hs⟩ := Set_two_ok db rdb k (Value.str v) [] t0 hset
  rw [hc]
  have hlive : (rdb.Set t0 k ⟨0, t0, Value.str v⟩ 0).2.Get t k
      = Except.ok ⟨0, t0, Value.str v⟩ := by
    simp [Redis.Get, Redis.Set, hs, hrget, Redis.live, lookup_put, KeepTTL]
  have hmiss : (hasGet t k (db.Put k ⟨0, t0, Value.str v⟩).2).1.2 = false := by
    simp [hasGet, LevelDB.Get, LevelDB.Put, hp, hget, lookup_put]
  simp only [GetString, List.headD_nil]
  rw [HasGetString_ldb_miss_value t k _ _ [] hmiss, HasGetString_redis_tail_hit t k _ _ hlive]
  rfl

/-- Instance of C2 with the key and value of the test: "foo1" and "bar1". -/
theorem set_no_expiration_then_GetString_witness :
    (GetString 100 "foo1" (Set 100 "foo1" (Value.str "bar1") []
      [Cache.levelDBCache ⟨[], healthyDB⟩, Cache.redisCache ⟨[], healthyRedis, []⟩]).2).1
        = "bar1" :=
  set_no_expiration_then_GetString ⟨[], healthyDB⟩ ⟨[], healthyRedis, []⟩ "foo1" "bar1"
    100 100 (by decide) rfl rfl rfl

/-! ## Write-through along a chain of any length -/

/-- A tier whose backend write fails stops the propagation and stays as it was. -/
theorem Set_cons_fail (now : Int) (k : String) (v : Value) (expiration : List Int)
    (c : Cache) (next : List Cache) (e : Error) (h : c.writeFault k = some e) :
    Set now k v expiration (c :: next) = (some e, c :: next) := by
  cases c with
  | levelDBCache db =>
    have h1 : db.fault DBOp.put k = some e := h
    simp [Set, LevelDB.Put, h1]
  | redisCache rdb =>
    have h1 : rdb.fault RedisCmd.set = some e := h
    simp [Set, Redis.Set, h1]

/-- A tier whose backend write succeeds stores the envelope and hands the call on. -/
theorem Set_cons_ok (now : Int) (k : String) (v : Value) (expiration : List Int)
    (c : Cache) (next : List Cache) (h : c.writeFault k = none) :
    ∃ c1 : Cache, c1.stored k = some ⟨expiration.headD 0, now, v⟩ ∧
      Set now k v expiration (c :: next)
        = ((Set now k v expiration next).1, c1 :: (Set now k v expiration next).2) := by
  cases c with
  | levelDBCache db =>
    have h1 : db.fault DBOp.put k = none := h
    refine ⟨Cache.levelDBCache (db.Put k ⟨expiration.headD 0, now, v⟩).2, ?_, ?_⟩
    · simp [Cache.stored, LevelDB.Put, h1, lookup_put]
    · cases next with
      | nil => simp [Set, LevelDB.Put, h1]
      | cons d ds => simp [Set, LevelDB.Put, h1]
  | redisCache rdb =>
    have h1 : rdb.fault RedisCmd.set = none := h
    refine ⟨Cache.redisCache
      (rdb.Set now k ⟨expiration.headD 0, now, v⟩ (expiration.headD 0)).2, ?_, ?_⟩
    · simp [Cache.stored, Redis.Set, h1, lookup_put]
    · cases next with
      | nil => simp [Set, Redis.Set, h1]
      | cons d ds => simp [Set, Redis.Set, h1]

/-- When every backend write succeeds every tier holds the envelope. -/
theorem Set_all_ok (now : Int) (k : String) (v : Value) (expiration : List Int)
    (chain : List Cache) (h : ∀ c ∈ chain, c.writeFault k = none) :
    (Set now k v expiration chain).1 = none ∧
    (Set now k v expiration chain).2.length = chain.length ∧
    ∀ c ∈ (Set now k v expiration chain).2,
      c.stored k = some ⟨expiration.headD 0, now, v⟩ := by
  induction chain with
  | nil => simp [Set]
  | cons c next ih =>
    obtain ⟨c1, hc1, heq⟩ := Set_cons_ok now k v expiration c next
      (h c (List.mem_cons_self c next))
    obtain ⟨i1, i2, i3⟩ := ih (fun d hd => h d (List.mem_cons_of_mem c hd))
    rw [heq]
    refine ⟨i1, by simp [i2], ?_⟩
    intro d hd
    rcases List.mem_cons.mp hd with hd | hd
    · rw [hd]; exact hc1
    · exact i3 d hd

/-- The propagation stops at the first tier whose backend write fails. -/
theorem Set_first_failure (now : Int) (k : String) (v : Value) (expiration : List Int)
    (pre post : List Cache) (c : Cache) (e : Error)
    (hpre : ∀ p ∈ pre, p.writeFault k = none) (hc : c.writeFault k = some e) :
    (Set now k v expiration (pre ++ c :: post)).1 = some e ∧
    ∃ pre1 : List Cache, (Set now k v expiration (pre ++ c :: post)).2 = pre1 ++ c :: post ∧
      pre1.length = pre.length ∧
      ∀ p ∈ pre1, p.stored k = some ⟨expiration.headD 0, now, v⟩ := by
  induction pre with
  | nil =>
    rw [List.nil_append, Set_cons_fail now k v expiration c post e hc]
    exact ⟨rfl, [], rfl, rfl, by simp⟩
  | cons a pre ih =>
    obtain ⟨a1, ha1, heq⟩ := Set_cons_ok now k v expiration a (pre ++ c :: post)
      (hpre a (List.mem_cons_self a pre))
    obtain ⟨i1, pre1, i2, i3, i4⟩ := ih (fun d hd => hpre d (List.mem_cons_of_mem a hd))
    rw [List.cons_append, heq]
    refine ⟨i1, a1 :: pre1, by simp [i2], by simp [i3], ?_⟩
    intro d hd
    rcases List.mem_cons.mp hd with hd | hd
    · rw [hd]; exact ha1
    · exact i4 d hd

/-- C3: for a chain of n >= 2 tiers and Set(k, v, ttl) on the head: if every
tier's backend write succeeds, Set returns no error and every tier's backend
holds the envelope of v and ttl for k; if the tier after the prefix pre is the
first whose write fails, with error e, Set returns e, the tiers of the prefix
hold the new envelope, and the failing tier and all tiers after it are as before. -/
theorem Set_write_through (now : Int) (k : String) (v : Value) (ttl : Int)
    (chain : List Cache) (_hn : 2 ≤ chain.length) :
    ((∀ c ∈ chain, c.writeFault k = none) →
      (Set now k v [ttl] chain).1 = none ∧
      (Set now k v [ttl] chain).2.length = chain.length ∧
      ∀ c ∈ (Set now k v [ttl] chain).2, c.stored k = some ⟨ttl, now, v⟩) ∧
    (∀ (pre post : List Cache) (c : Cache) (e : Error),
      chain = pre ++ c :: post → (∀ p ∈ pre, p.writeFault k = none) →
      c.writeFault k = some e →
      (Set now k v [ttl] chain).1 = some e ∧
      ∃ pre1 : List Cache, (Set now k v [ttl] chain).2 = pre1 ++ c :: post ∧
        pre1.length = pre.length ∧
        ∀ p ∈ pre1, p.stored k = some ⟨ttl, now, v⟩) := by
  constructor
  · intro h
    exact Set_all_ok now k v [ttl] chain h
  · intro pre post c e hchain hpre hc
    subst hchain
    exact Set_first_failure now k v [ttl] pre post c e hpre hc

/-- Instance of C3: on a healthy chain [ldb, redis] both tiers hold the envelope;
with a Redis whose SET fails the error is returned, the ldb tier holds the
envelope and the redis tier is as before. -/
theorem Set_write_through_witness :
    ((Set 100 "k" (Value.str "v") [10]
        [Cache.levelDBCache ⟨[], healthyDB⟩, Cache.redisCache ⟨[], healthyRedis, []⟩]).1 = none ∧
      ∀ c ∈ (Set 100 "k" (Value.str "v") [10]
        [Cache.levelDBCache ⟨[], healthyDB⟩, Cache.redisCache ⟨[], healthyRedis, []⟩]).2,
        c.stored "k" = some ⟨10, 100, Value.str "v"⟩) ∧
    ((Set 100 "k" (Value.str "v") [10]
        [Cache.levelDBCache ⟨[], healthyDB⟩,
         Cache.redisCache ⟨[], failingSet (Error.backend 7), []⟩]).1
        = some (Error.backend 7) ∧
      ∃ pre1 : List Cache, (Set 100 "k" (Value.str "v") [10]
        [Cache.levelDBCache ⟨[], healthyDB⟩,
         Cache.redisCache ⟨[], failingSet (Error.backend 7), []⟩]).2
          = pre1 ++ Cache.redisCache ⟨[], failingSet (Error.backend 7), []⟩ :: [] ∧
        pre1.length = 1 ∧
        ∀ p ∈ pre1, p.stored "k" = some ⟨10, 100, Value.str "v"⟩) :=
  ⟨(fun h => ⟨h.1, h.2.2⟩) ((Set_write_through 100 "k" (Value.str "v") 10
      [Cache.levelDBCache ⟨[], healthyDB⟩, Cache.redisCache ⟨[], healthyRedis, []⟩]
      (by decide)).1
      (by
        intro c hc
        simp only [List.mem_cons, List.mem_singleton, List.not_mem_nil, or_false] at hc
        rcases hc with rfl | rfl <;> rfl)),
   (Set_write_through 100 "k" (Value.str "v") 10
      [Cache.levelDBCache ⟨[], healthyDB⟩,
       Cache.redisCache ⟨[], failingSet (Error.backend 7), []⟩]
      (by decide)).2
      [Cache.levelDBCache ⟨[], healthyDB⟩] []
      (Cache.redisCache ⟨[], failingSet (Error.backend 7), []⟩) (Error.backend 7) rfl
      (by
        intro c hc
        simp only [List.mem_singleton] at hc
        rw [hc]
        rfl)
      rfl⟩

/-! ## Lazy eviction on an `ldb` tier -/

/-- C4: on an ldb tier without next tier, if the backend holds for k an envelope
written at t0 with ttl > 0, a read at a time t > t0 + ttl reports not-found
(hasGet, Has, HasGetString, TTL) and afterwards the backend no longer contains k
(the backend read and deletion of k not failing). -/
theorem expired_read_evicts (db : LevelDB) (k : String) (v : Value) (ttl t0 t : Int)
    (httl : 0 < ttl) (ht : t0 + ttl < t)
    (hstored : db.data.lookup k = some ⟨ttl, t0, v⟩)
    (hget : db.fault DBOp.get k = none) (hdel : db.fault DBOp.delete k = none) :
    ((hasGet t k db).1.2 = false ∧ (hasGet t k db).2.data.lookup k = none) ∧
    ((Has t k [Cache.levelDBCache db]).1 = false ∧
      ∀ c ∈ (Has t k [Cache.levelDBCache db]).2, c.stored k = none) ∧
    ((HasGetString t k [Cache.levelDBCache db]).1 = ("", false) ∧
      ∀ c ∈ (HasGetString t k [Cache.levelDBCache db]).2, c.stored k = none) ∧
    ((TTL t k [Cache.levelDBCache db]).1 = (0, false) ∧
      ∀ c ∈ (TTL t k [Cache.levelDBCache db]).2, c.stored k = none) := by
  have hg : hasGet t k db = ((none, false), (db.Delete k).2) := by
    simp [hasGet, LevelDB.Get, hget, hstored, httl, ht]
  have hd : (db.Delete k).2.data.lookup k = none := by
    simp only [LevelDB.Delete, hdel]
    exact lookup_filter_ne k db.data
  refine ⟨⟨by rw [hg], by rw [hg]; exact hd⟩, ?_, ?_, ?_⟩
  · simp [Has, hg, Cache.stored, hd]
  · simp [HasGetString, hg, Cache.stored, hd]
  · simp [TTL, hg, Cache.stored, hd]

/-- Instance of C4: an envelope written at 100 with ttl 10, read at 111. -/
theorem expired_read_evicts_witness :
    ((hasGet 111 "k" ⟨[("k", ⟨10, 100, Value.str "v"⟩)], healthyDB⟩).1.2 = false ∧
      (hasGet 111 "k" ⟨[("k", ⟨10, 100, Value.str "v"⟩)], healthyDB⟩).2.data.lookup "k"
        = none) ∧
    (HasGetString 111 "k"
      [Cache.levelDBCache ⟨[("k", ⟨10, 100, Value.str "v"⟩)], healthyDB⟩]).1 = ("", false) :=
  let h := expired_read_evicts ⟨[("k", ⟨10, 100, Value.str "v"⟩)], healthyDB⟩ "k"
    (Value.str "v") 10 100 111 (by decide) (by decide) (by decide) rfl rfl
  ⟨h.1, h.2.2.1.1⟩

/-! ## Promotion through an `ldb` next tier -/

/-- C5 at a failing input: the next tier is an ldb tier holding a live entry
for "k" (value "v", 5 time units left of 10).  The read on the head returns
("v", true), but `levelDBCache.TTL` of the next tier reports -5 instead of 5, the
promotion stores the envelope with TTL -5 in every tier, and the local lookup
that follows is a miss. -/
theorem promotion_from_ldb_next_stores_negative_ttl :
    (promotionChain.map (fun c => c.stored "k")
      = [none, some ⟨10, 100, Value.str "v"⟩, some ⟨10, 100, Value.str "v"⟩]) ∧
    (TTL 105 "k" (promotionChain.drop 1)).1 = (-5, true) ∧
    (HasGetString 105 "k" promotionChain).1 = ("v", true) ∧
    ((HasGetString 105 "k" promotionChain).2.map (fun c => c.stored "k")
      = [some ⟨-5, 105, Value.str "v"⟩, some ⟨-5, 105, Value.str "v"⟩,
         some ⟨-5, 105, Value.str "v"⟩]) ∧
    (TTL 105 "k" (HasGetString 105 "k" promotionChain).2).1 = (0, false) := by
  decide

/-- The lazy eviction of `hasGet` never touches the fault oracle. -/
theorem hasGet_fault (now : Int) (path : String) (db : LevelDB) :
    (hasGet now path db).2.fault = db.fault := by
  have hd : (db.Delete path).2.fault = db.fault := by
    unfold LevelDB.Delete
    split <;> rfl
  unfold hasGet
  cases db.Get path with
  | error err => rfl
  | ok v =>
    simp only []
    split_ifs <;> first | exact hd | rfl

/-- A live envelope that was just written is found by the local lookup. -/
theorem hasGet_after_Put (now : Int) (path : String) (db : LevelDB) (cv : Envelope)
    (hput : db.fault DBOp.put path = none) (hget : db.fault DBOp.get path = none)
    (hpos : 0 < cv.ExpiredDuration) (hlive : ¬ now > cv.CreatedAt + cv.ExpiredDuration) :
    ((db.Put path cv).2.data.lookup path = some cv) ∧
    (hasGet now path (db.Put path cv).2).1 = (some cv, true) := by
  constructor
  · simp [LevelDB.Put, hput, lookup_put]
  · simp [hasGet, LevelDB.Get, LevelDB.Put, hput, hget, lookup_put, hpos, hlive]

/-- Promotion from a redis next tier: on a chain [ldb, redis] whose ldb tier
misses k and whose Redis holds a live entry for k with string value v, let r be
the time to live that Redis reports, the remaining milliseconds rounded to whole
seconds.  If r > 0, HasGetString on the head returns (v, true), the ldb backend
afterwards holds the envelope of v with TTL r, and a local lookup that follows
is a hit (no backend call failing). -/
theorem promotion_from_redis_next (db : LevelDB) (rdb : Redis) (k v : String)
    (now e created dur r : Int)
    (hmiss : (hasGet now k db).1.2 = false)
    (hentry : rdb.data.lookup k = some ⟨⟨dur, created, Value.str v⟩, some e⟩)
    (hle : now ≤ e)
    (hrdef : r = (e / millisecond - now / millisecond + 500) / 1000 * second)
    (hr : 0 < r)
    (hput : db.fault DBOp.put k = none) (hget : db.fault DBOp.get k = none)
    (hrget : rdb.fault RedisCmd.get = none) (hrttl : rdb.fault RedisCmd.ttl = none) :
    (HasGetString now k [Cache.levelDBCache db, Cache.redisCache rdb]).1 = (v, true) ∧
    ∃ (db1 : LevelDB) (rest : List Cache),
      (HasGetString now k [Cache.levelDBCache db, Cache.redisCache rdb]).2
        = Cache.levelDBCache db1 :: rest ∧
      db1.data.lookup k = some ⟨r, now, Value.str v⟩ ∧
      (hasGet now k db1).1 = (some ⟨r, now, Value.str v⟩, true) := by
  have hlive : rdb.live now k = some ⟨⟨dur, created, Value.str v⟩, some e⟩ := by
    simp [Redis.live, hentry, hle]
  have hg : rdb.Get now k = Except.ok ⟨dur, created, Value.str v⟩ := by
    simp [Redis.Get, hrget, hlive]
  have hnext : HasGetString now k [Cache.redisCache rdb]
      = ((v, true), [Cache.redisCache rdb]) := by
    rw [HasGetString_redis_tail_hit now k rdb _ hg]
    rfl
  have httl : TTL now k [Cache.redisCache rdb] = ((r, true), [Cache.redisCache rdb]) := by
    simp [TTL, Redis.TTL, hrttl, hlive, hrdef]
  have hf := hasGet_fault now k db
  have hp : (hasGet now k db).2.fault DBOp.put k = none := by rw [hf]; exact hput
  have hg1 : (hasGet now k db).2.fault DBOp.get k = none := by rw [hf]; exact hget
  have hkey := hasGet_after_Put now k (hasGet now k db).2 ⟨r, now, Value.str v⟩ hp hg1 hr
    (by simp only [gt_iff_lt, not_lt]; omega)
  have hres : HasGetString now k [Cache.levelDBCache db, Cache.redisCache rdb]
      = ((v, true), (Set now k (Value.str v) [r]
          [Cache.levelDBCache (hasGet now k db).2, Cache.redisCache rdb]).2) := by
    rw [HasGetString]
    simp only [hmiss, Bool.false_eq_true, if_false, List.isEmpty_cons, if_true, hnext, httl]
  rw [hres]
  refine ⟨rfl, ((hasGet now k db).2.Put k ⟨r, now, Value.str v⟩).2,
    (Set now k (Value.str v) [r] [Cache.redisCache rdb]).2, ?_, hkey.1, hkey.2⟩
  simp [Set, LevelDB.Put, hp]

/-! ## Cascading delete -/

/-- The deletion loop never touches the fault oracle. -/
theorem deleteEach_fault (err : Option Error) (keys : List String) (db : LevelDB) :
    (deleteEach err keys db).2.fault = db.fault := by
  induction keys generalizing err db with
  | nil => rfl
  | cons k ks ih =>
    rw [deleteEach, ih]
    unfold LevelDB.Delete
    split <;> rfl

/-- When no deletion fails the loop removes exactly the listed keys and keeps
the error it started with. -/
theorem deleteEach_ok (err : Option Error) (keys : List String) (db : LevelDB)
    (h : ∀ k ∈ keys, db.fault DBOp.delete k = none) :
    (deleteEach err keys db).1 = err ∧
    (deleteEach err keys db).2.data = db.data.filter (fun p => decide (p.1 ∉ keys)) := by
  induction keys generalizing err db with
  | nil => simp [deleteEach]
  | cons k ks ih =>
    have hk : db.fault DBOp.delete k = none := h k (List.mem_cons_self k ks)
    have hd : db.Delete k
        = (none, { db with data := db.data.filter (fun p => decide (p.1 ≠ k)) }) := by
      simp [LevelDB.Delete, hk]
    rw [deleteEach, hd]
    have ih1 := ih err { db with data := db.data.filter (fun p => decide (p.1 ≠ k)) }
      (fun a ha => h a (List.mem_cons_of_mem k ha))
    simp only [ne_eq, not_true_eq_false, and_false, if_false]
    refine ⟨ih1.1, ?_⟩
    rw [ih1.2, List.filter_filter]
    apply List.filter_congr
    intro p _
    simp only [List.mem_cons, not_or]
    by_cases h1 : p.1 = k <;> by_cases h2 : p.1 ∈ ks <;> simp [h1, h2]

/-- A tier with a next tier deletes locally and hands the call on; the result
of the call is the result of the next tier. -/
theorem Del_cons_cons (keys : List String) (c d : Cache) (next : List Cache) :
    Del keys (c :: d :: next)
      = ((Del keys (d :: next)).1, c.deleteLocal keys :: (Del keys (d :: next)).2) := by
  cases c <;> simp [Del, Cache.deleteLocal]

/-- A tail `redisCache` deletes locally and publishes the joined key list. -/
theorem Del_redis_tail (keys : List String) (rdb : Redis) :
    Del keys [Cache.redisCache rdb]
      = (((rdb.Del keys).2.Publish connectChannel (Join keys ",")).1,
         [Cache.redisCache ((rdb.Del keys).2.Publish connectChannel (Join keys ",")).2]) := by
  simp [Del]

/-- The local part of `Del` publishes nothing. -/
theorem deleteLocal_published (keys : List String) (c : Cache) :
    (c.deleteLocal keys).published = c.published := by
  cases c with
  | levelDBCache db => rfl
  | redisCache rdb =>
    simp only [Cache.deleteLocal, Cache.published, Redis.Del]
    split <;> rfl

/-- After the local part of `Del`, deletions not failing, no listed key is stored. -/
theorem deleteLocal_stored (keys : List String) (c : Cache)
    (h : ∀ k ∈ keys, c.deleteFault k = none) (k : String) (hk : k ∈ keys) :
    (c.deleteLocal keys).stored k = none := by
  cases c with
  | levelDBCache db =>
    have h1 : ∀ k ∈ keys, db.fault DBOp.delete k = none := h
    simp only [Cache.deleteLocal, Cache.stored, (deleteEach_ok none keys db h1).2]
    exact lookup_filter_mem k keys hk db.data
  | redisCache rdb =>
    have h1 : rdb.fault RedisCmd.del = none := h k hk
    simp only [Cache.deleteLocal, Cache.stored, Redis.Del, h1]
    rw [lookup_filter_mem k keys hk rdb.data]
    rfl

/-- C6: on a chain ending in a redis tier, Del(ks...) on the head (no backend
deletion and no publish failing) returns no error, removes every key of ks from
every tier's backend, and the only message published is the one the tail tier
adds on the invalidation channel, the keys of ks joined with commas in argument
order; the tiers that have a next tier publish nothing. -/
theorem Del_cascade (pre : List Cache) (rdb : Redis) (ks : List String)
    (hdel : ∀ c ∈ pre ++ [Cache.redisCache rdb], ∀ k ∈ ks, c.deleteFault k = none)
    (hpub : rdb.fault RedisCmd.publish = none) :
    (Del ks (pre ++ [Cache.redisCache rdb])).1 = none ∧
    (Del ks (pre ++ [Cache.redisCache rdb])).2.length = pre.length + 1 ∧
    (∀ c ∈ (Del ks (pre ++ [Cache.redisCache rdb])).2, ∀ k ∈ ks, c.stored k = none) ∧
    (Del ks (pre ++ [Cache.redisCache rdb])).2.map Cache.published
      = pre.map Cache.published ++ [rdb.published ++ [(connectChannel, Join ks ",")]] := by
  induction pre with
  | nil =>
    have hf : (rdb.Del ks).2.fault = rdb.fault := by
      unfold Redis.Del
      split <;> rfl
    have hp : (rdb.Del ks).2.published = rdb.published := by
      unfold Redis.Del
      split <;> rfl
    have hpub1 : (rdb.Del ks).2.fault RedisCmd.publish = none := by rw [hf]; exact hpub
    rw [List.nil_append, Del_redis_tail]
    refine ⟨by simp [Redis.Publish, hpub1], rfl, ?_, by simp [Redis.Publish, hpub1, Cache.published, hp]⟩
    intro c hc k hk
    simp only [List.mem_singleton] at hc
    have hs := deleteLocal_stored ks (Cache.redisCache rdb)
      (hdel (Cache.redisCache rdb) (by simp)) k hk
    rw [hc]
    simpa [Cache.stored, Cache.deleteLocal, Redis.Publish, hpub1] using hs
  | cons a pre ih =>
    obtain ⟨i1, i2, i3, i4⟩ := ih (fun c hc => hdel c (by
      rw [List.cons_append]
      exact List.mem_cons_of_mem a hc))
    have hshape : ∃ d rest, pre ++ [Cache.redisCache rdb] = d :: rest := by
      cases pre with
      | nil => exact ⟨_, _, rfl⟩
      | cons d ds => exact ⟨_, _, rfl⟩
    obtain ⟨d, rest, hdr⟩ := hshape
    rw [List.cons_append]
    rw [hdr] at i1 i2 i3 i4 ⊢
    rw [Del_cons_cons]
    refine ⟨i1, by simp [i2], ?_, ?_⟩
    · intro c hc k hk
      rcases List.mem_cons.mp hc with hc | hc
      · rw [hc]
        exact deleteLocal_stored ks a (hdel a (by simp)) k hk
      · exact i3 c hc k hk
    · simp [deleteLocal_published, i4]

/-- Instance of C6: Del("a", "b") on a healthy chain [ldb, redis] holding both keys. -/
theorem Del_cascade_witness :
    (Del ["a", "b"] ([Cache.levelDBCache
        ⟨[("a", ⟨10, 100, Value.str "x"⟩), ("b", ⟨10, 100, Value.str "y"⟩)], healthyDB⟩] ++
      [Cache.redisCache ⟨[("a", ⟨⟨10, 100, Value.str "x"⟩, some 110⟩)], healthyRedis, []⟩])).1
        = none ∧
    (Del ["a", "b"] ([Cache.levelDBCache
        ⟨[("a", ⟨10, 100, Value.str "x"⟩), ("b", ⟨10, 100, Value.str "y"⟩)], healthyDB⟩] ++
      [Cache.redisCache ⟨[("a", ⟨⟨10, 100, Value.str "x"⟩, some 110⟩)], healthyRedis,
        []⟩])).2.map Cache.published
        = [[], [("CONNECT_CHANNEL", "a,b")]] :=
  (fun h => ⟨h.1, h.2.2.2⟩) (Del_cascade
    [Cache.levelDBCache
      ⟨[("a", ⟨10, 100, Value.str "x"⟩), ("b", ⟨10, 100, Value.str "y"⟩)], healthyDB⟩]
    ⟨[("a", ⟨⟨10, 100, Value.str "x"⟩, some 110⟩)], healthyRedis, []⟩ ["a", "b"]
    (by
      intro c hc k _
      simp only [List.singleton_append, List.mem_cons, List.mem_singleton, List.not_mem_nil,
        or_false] at hc
      rcases hc with rfl | rfl <;> rfl)
    rfl)

/-! ## Read after delete -/

/-- C7 at the input of the test: after Set("foo1", "bar1") and a successful
Del("foo1") no tier holds "foo1", yet HasGetString("foo1") on the head returns
("", true): the found flag of the next tier is replaced by the flag of its TTL
query, which is true for an absent key, and the empty string is written back
into both tiers. -/
theorem HasGetString_after_Del_reports_found :
    afterSetDel.1 = none ∧
    (afterSetDel.2.map (fun c => c.stored "foo1") = [none, none]) ∧
    (HasGetString 101 "foo1" (afterSetDel.2.drop 1)).1 = ("", false) ∧
    (TTL 101 "foo1" (afterSetDel.2.drop 1)).1 = (-2, true) ∧
    (HasGetString 101 "foo1" afterSetDel.2).1 = ("", true) ∧
    ((HasGetString 101 "foo1" afterSetDel.2).2.map (fun c => c.stored "foo1")
      = [some ⟨-2, 101, Value.str ""⟩, some ⟨-2, 101, Value.str ""⟩]) := by
  decide

/-! ## Error returned by `Del` -/

/-- C8 at failing inputs.  Without next tier the ldb tier attempts both keys
("b" is deleted) and returns the error of "a".  With a healthy redis next tier
the same local failure is lost: Del returns nil, the result of the next tier.
A tail redis tier whose DEL fails returns nil as well, the result of Publish. -/
theorem Del_drops_local_error :
    (Del ["a", "b"] [Cache.levelDBCache faultyTier]).1 = some (Error.backend 1) ∧
    ((Del ["a", "b"] [Cache.levelDBCache faultyTier]).2.map
      (fun c => (c.stored "a", c.stored "b"))
      = [(some ⟨10, 100, Value.str "x"⟩, none)]) ∧
    (deleteEach none ["a", "b"] faultyTier).1 = some (Error.backend 1) ∧
    (Del ["a", "b"]
      [Cache.levelDBCache faultyTier, Cache.redisCache ⟨[], healthyRedis, []⟩]).1 = none ∧
    ((⟨[], failingDel, []⟩ : Redis).Del ["a", "b"]).1 = some (Error.backend 2) ∧
    (Del ["a", "b"] [Cache.redisCache ⟨[], failingDel, []⟩]).1 = none := by
  decide

/-! ## The invalidation handler -/

/-- C9 at a failing input: the handler of the redis tier (position 1) receives
the payload "foo1".  The key is deleted from the ldb tier, but the Del of the
previous tier goes on to its next tier, the redis tier itself: "foo1" is
deleted from Redis and a further message "foo1" is published on the
invalidation channel.  An empty payload changes nothing. -/
theorem invalidation_handler_reaches_redis :
    (linkedChain.map (fun c => (c.stored "foo1", c.published))
      = [(some ⟨10, 100, Value.str "bar1"⟩, []), (some ⟨10, 100, Value.str "bar1"⟩, [])]) ∧
    ((onInvalidation linkedChain 1 "foo1").map (fun c => (c.stored "foo1", c.published))
      = [(none, []), (none, [("CONNECT_CHANNEL", "foo1")])]) ∧
    ((onInvalidation linkedChain 1 "").map (fun c => (c.stored "foo1", c.published))
      = linkedChain.map (fun c => (c.stored "foo1", c.published))) := by
  decide

/-! ## The payload of the invalidation message -/

/-- A piece without separator is returned whole. -/
theorem splitChars_no_sep (sep : Char) (a : List Char) (h : sep ∉ a) :
    splitChars sep a = [a] := by
  induction a with
  | nil => rfl
  | cons c cs ih =>
    have hc : c ≠ sep := fun e => h (by simp [e])
    have hcs : sep ∉ cs := fun e => h (List.mem_cons_of_mem c e)
    simp [splitChars, hc, ih hcs]

/-- A piece without separator followed by the separator is split off. -/
theorem splitChars_append_sep (sep : Char) (a rest : List Char) (h : sep ∉ a) :
    splitChars sep (a ++ sep :: rest) = a :: splitChars sep rest := by
  induction a with
  | nil => simp [splitChars]
  | cons c cs ih =>
    have hc : c ≠ sep := fun e => h (by simp [e])
    have hcs : sep ∉ cs := fun e => h (List.mem_cons_of_mem c e)
    simp [splitChars, hc, ih hcs]

/-- Splitting the comma-joined list gives the list back when it is not empty
and no key contains a comma. -/
theorem Split_Join (ks : List String) (hne : ks ≠ [])
    (hc : ∀ k ∈ ks, ',' ∉ k.data) : Split (Join ks ",") ',' = ks := by
  induction ks with
  | nil => exact absurd rfl hne
  | cons a rest ih =>
    cases rest with
    | nil =>
      simp only [Join, Split]
      rw [splitChars_no_sep ',' a.data (hc a (by simp))]
      rfl
    | cons b rest =>
      have ih1 := ih (by simp) (fun k hk => hc k (List.mem_cons_of_mem a hk))
      have hd : (Join (a :: b :: rest) ",").data
          = a.data ++ ',' :: (Join (b :: rest) ",").data := by
        simp only [Join, String.data_append]
        rw [List.append_assoc]
        rfl
      unfold Split at ih1 ⊢
      rw [hd, splitChars_append_sep ',' a.data _ (hc a (by simp)), List.map_cons, ih1]

/-- C10 as stated fails: a key containing a comma comes back as two keys, the
empty key list comes back as the list of the empty key, and the payload of the
single empty key is the empty string, which the handler ignores (the key stays
in the ldb tier). -/
theorem Split_Join_counterexample :
    Split (Join ["a,b"] ",") ',' = ["a", "b"] ∧ Split (Join ["a,b"] ",") ',' ≠ ["a,b"] ∧
    Split (Join [] ",") ',' = [""] ∧ Split (Join [] ",") ',' ≠ [] ∧
    Join [""] "," = "" ∧
    (onInvalidation
      [Cache.levelDBCache ⟨[("", ⟨10, 100, Value.str "x"⟩)], healthyDB⟩,
       Cache.redisCache ⟨[], healthyRedis, []⟩] 1 (Join [""] ",")).map (fun c => c.stored "")
      = [some ⟨10, 100, Value.str "x"⟩, none] := by
  decide

/-- C10 amended: for a non-empty key list ks none of whose keys contains a
comma, splitting the published payload on commas gives back ks; and when the
payload is not the empty string, the handler of a second chain [ldb, redis]
that receives it deletes exactly the keys of ks from its ldb tier (deletions of
these keys not failing): afterwards the tier holds no key of ks and every other
key as before. -/
theorem invalidation_payload_roundtrip (ks : List String) (db : LevelDB) (rdb : Redis)
    (hne : ks ≠ []) (hc : ∀ k ∈ ks, ',' ∉ k.data) :
    Split (Join ks ",") ',' = ks ∧
    (Join ks "," ≠ "" → (∀ k ∈ ks, db.fault DBOp.delete k = none) →
      ∃ (db1 : LevelDB) (rest : List Cache),
        onInvalidation [Cache.levelDBCache db, Cache.redisCache rdb] 1 (Join ks ",")
          = Cache.levelDBCache db1 :: rest ∧
        ∀ k, db1.data.lookup k = if k ∈ ks then none else db.data.lookup k) := by
  have hsj := Split_Join ks hne hc
  refine ⟨hsj, ?_⟩
  intro hpay hdel
  refine ⟨(deleteEach none ks db).2, (Del ks [Cache.redisCache rdb]).2, ?_, ?_⟩
  · simp only [onInvalidation, hpay, if_false, List.take_zero, List.drop_zero, List.nil_append,
      hsj]
    rw [Del_cons_cons]
    rfl
  · intro k
    rw [(deleteEach_ok none ks db hdel).2]
    by_cases hk : k ∈ ks
    · rw [if_pos hk]
      exact lookup_filter_mem k ks hk db.data
    · rw [if_neg hk]
      exact lookup_filter_not_mem k ks hk db.data

/-- Instance of C10 amended: the keys "a" and "b", received by a chain whose ldb
tier holds "a" and "c". -/
theorem invalidation_payload_roundtrip_witness :
    Split (Join ["a", "b"] ",") ',' = ["a", "b"] ∧
    ∃ (db1 : LevelDB) (rest : List Cache),
      onInvalidation
        [Cache.levelDBCache
          ⟨[("a", ⟨10, 100, Value.str "x"⟩), ("c", ⟨10, 100, Value.str "z"⟩)], healthyDB⟩,
         Cache.redisCache ⟨[], healthyRedis, []⟩] 1 (Join ["a", "b"] ",")
        = Cache.levelDBCache db1 :: rest ∧
      ∀ k, db1.data.lookup k = if k ∈ ["a", "b"] then none
        else List.lookup k [("a", (⟨10, 100, Value.str "x"⟩ : Envelope)),
          ("c", ⟨10, 100, Value.str "z"⟩)] :=
  (fun h => ⟨h.1, h.2 (by decide) (fun _ _ => rfl)⟩)
    (invalidation_payload_roundtrip ["a", "b"]
      ⟨[("a", ⟨10, 100, Value.str "x"⟩), ("c", ⟨10, 100, Value.str "z"⟩)], healthyDB⟩
      ⟨[], healthyRedis, []⟩ (by decide) (by decide))

/-! ## Existence check -/

/-- C11 at failing inputs.  A redis tier whose backend holds a live entry for "k"
(EXISTS answers 1) reports Has("k") = false, because the test is `> 1`; on a
chain [ldb, redis] with an empty ldb tier Has("k") is false as well, although
HasGetString finds the value.  An ldb tier holding the live entry answers true,
an ldb tier without it hands the question to its next tier, and Has leaves the
stored entries as they were. -/
theorem Has_redis_never_true :
    (match redisHoldingK with
      | [Cache.redisCache rdb] => rdb.Exists 105 ["k"]
      | _ => 0) = 1 ∧
    (Has 105 "k" redisHoldingK).1 = false ∧
    (Has 105 "k" (Cache.levelDBCache ⟨[], healthyDB⟩ :: redisHoldingK)).1 = false ∧
    (HasGetString 105 "k" (Cache.levelDBCache ⟨[], healthyDB⟩ :: redisHoldingK)).1
      = ("v", true) ∧
    (Has 105 "k" ldbHoldingK).1 = true ∧
    (Has 105 "k" (Cache.levelDBCache ⟨[], healthyDB⟩ :: ldbHoldingK)).1 = true ∧
    ((Has 105 "k" (Cache.levelDBCache ⟨[], healthyDB⟩ :: redisHoldingK)).2.map
      (fun c => c.stored "k") = [none, some ⟨10, 100, Value.str "v"⟩]) := by
  decide

/-! ## TTL query of an `ldb` tier -/

/-- C12 at a failing input: the ldb backend holds for "k" an envelope created at
100 with ttl 10 and TTL("k") is called at 105.  The code returns (-5, true), the
time since expiry with the sign of `now - expiredAt`, where the remaining time
to live is 5.  For a key absent from the local backend it returns (0, false)
also when the next tier holds the key. -/
theorem ldb_TTL_is_negated :
    (TTL 105 "k" ldbHoldingK).1 = (-5, true) ∧
    (TTL 100 "k" ldbHoldingK).1 = (-10, true) ∧
    (TTL 110 "k" ldbHoldingK).1 = (0, true) ∧
    (TTL 105 "k" (Cache.levelDBCache ⟨[], healthyDB⟩ :: redisHoldingK)).1 = (0, false) := by
  decide

/-! ## Pattern scans of an `ldb` tier -/

/-- Keys of a map after an assignment. -/
theorem mapSet_keys (m : List (String × String)) (key value k : String) :
    k ∈ (mapSet m key value).map Prod.fst ↔ k = key ∨ k ∈ m.map Prod.fst := by
  simp only [mapSet, List.map_cons, List.mem_cons, List.mem_map, List.mem_filter,
    decide_eq_true_eq, Prod.exists, exists_and_right, exists_eq_right]
  constructor
  · rintro (h | ⟨h, _⟩)
    · exact Or.inl h
    · exact Or.inr h
  · rintro (h | h)
    · exact Or.inl h
    · by_cases hk : k = key
      · exact Or.inl hk
      · exact Or.inr ⟨h, hk⟩

/-- Without limit the loop of `filter` collects exactly the matching keys. -/
theorem filterLoop_keys (marshal : Envelope → String) (f : String → Envelope → Bool)
    (v : List (String × String)) (l : List (String × Envelope)) (k : String) :
    k ∈ (filterLoop marshal f 0 v l).map Prod.fst ↔
      k ∈ v.map Prod.fst ∨ ∃ p ∈ l, p.1 = k ∧ f p.1 p.2 = true := by
  induction l generalizing v with
  | nil => simp [filterLoop]
  | cons p l ih =>
    obtain ⟨key, value⟩ := p
    rw [filterLoop]
    simp only [gt_iff_lt, lt_self_iff_false, false_and, if_false]
    rw [ih]
    by_cases hf : f key value = true
    · simp only [hf, if_true, mapSet_keys, List.mem_cons, exists_eq_or_imp, and_true]
      constructor
      · rintro ((h | h) | h)
        · exact Or.inr (Or.inl h.symm)
        · exact Or.inl h
        · exact Or.inr (Or.inr h)
      · rintro (h | h | h)
        · exact Or.inl (Or.inr h)
        · exact Or.inl (Or.inl h.symm)
        · exact Or.inr h
    · simp only [hf, if_false, List.mem_cons, exists_eq_or_imp, and_false, false_or,
        Bool.false_eq_true]

/-- A map without keys is the empty map. -/
theorem keys_empty_iff (m : List (String × String)) :
    m.length = 0 ↔ ∀ k, k ∉ m.map Prod.fst := by
  cases m with
  | nil => simp
  | cons p m =>
    simp only [List.length_cons, Nat.add_one_ne_zero, List.map_cons, List.mem_cons, not_or,
      false_iff, not_forall, not_and, not_not]
    exact ⟨p.1, fun h => absurd rfl h⟩

/-- Inserting in key order adds the entry and keeps the others. -/
theorem mem_insertByKey (x p : String × Envelope) (l : List (String × Envelope)) :
    x ∈ insertByKey p l ↔ x = p ∨ x ∈ l := by
  induction l with
  | nil => simp [insertByKey]
  | cons q rest ih =>
    rw [insertByKey]
    split_ifs
    · simp only [List.mem_cons, ih]
      tauto
    · simp only [List.mem_cons]

/-- The iterator yields exactly the entries of the table. -/
theorem mem_iterOrder (x : String × Envelope) (l : List (String × Envelope)) :
    x ∈ iterOrder l ↔ x ∈ l := by
  induction l with
  | nil => simp [iterOrder]
  | cons p rest ih =>
    have h : iterOrder (p :: rest) = insertByKey p (iterOrder rest) := rfl
    rw [h, mem_insertByKey, ih, List.mem_cons]

/-- Without limit the local scan of an ldb tier returns exactly the matching keys. -/
theorem filter_keys (marshal : Envelope → String) (db : LevelDB)
    (pred : String → String → Bool) (s : String) (k : String) :
    k ∈ (filter marshal db (fun key _ => pred key s) []).1.map Prod.fst
      ↔ k ∈ localKeys db pred s := by
  have h1 := filterLoop_keys marshal (fun key _ => pred key s) [] (iterOrder db.data) k
  have h2 : (filter marshal db (fun key _ => pred key s) []).1
      = filterLoop marshal (fun key _ => pred key s) 0 [] (iterOrder db.data) := rfl
  rw [h2, h1]
  constructor
  · rintro (h | ⟨p, hp, hk, hf⟩)
    · simp at h
    · subst hk
      exact List.mem_filter.mpr
        ⟨List.mem_map.mpr ⟨p, (mem_iterOrder p db.data).mp hp, rfl⟩, hf⟩
  · intro h
    obtain ⟨hm, hf⟩ := List.mem_filter.mp h
    obtain ⟨p, hp, hk⟩ := List.mem_map.mp hm
    subst hk
    exact Or.inr ⟨p, (mem_iterOrder p db.data).mpr hp, rfl, hf⟩

/-- The local scan is empty exactly when no local key matches. -/
theorem filter_empty_iff (marshal : Envelope → String) (db : LevelDB)
    (pred : String → String → Bool) (s : String) :
    (filter marshal db (fun key _ => pred key s) []).1.length = 0
      ↔ localKeys db pred s = [] := by
  rw [keys_empty_iff, List.eq_nil_iff_forall_not_mem]
  constructor
  · intro h k hk
    exact h k ((filter_keys marshal db pred s k).mpr hk)
  · intro h k hk
    exact h k ((filter_keys marshal db pred s k).mp hk)

/-- The fallback policy of a scan issued on an ldb tier, for any predicate. -/
theorem scanChain_ldb (marshal : Envelope → String) (glob : String → String → Bool)
    (pred : String → String → Bool) (pattern : String → String) (now : Int) (s : String)
    (db : LevelDB) (next : List Cache) (hiter : db.fault DBOp.iterate "" = none) :
    LocalThenNext (localKeys db pred s) next
      (scanChain marshal glob pred pattern now s [] (Cache.levelDBCache db :: next))
      (scanChain marshal glob pred pattern now s [] next) := by
  have herr : (filter marshal db (fun key _ => pred key s) []).2 = none := hiter
  have hlen := filter_empty_iff marshal db pred s
  refine ⟨?_, ?_, ?_⟩
  · intro hne
    have hl : ¬ (filter marshal db (fun key _ => pred key s) []).1.length = 0 :=
      fun h => hne (hlen.mp h)
    rw [scanChain]
    simp only [hl, false_and, and_false, if_false]
    exact ⟨herr, filter_keys marshal db pred s⟩
  · intro he hn
    have hl := hlen.mpr he
    have hnext : next.isEmpty = false := by
      cases next with
      | nil => exact absurd rfl hn
      | cons c cs => rfl
    rw [scanChain]
    simp only [herr, hl, hnext, and_self, if_true]
  · intro he hn
    have hl := hlen.mpr he
    subst hn
    rw [scanChain]
    simp only [List.isEmpty_nil, Bool.true_eq_false, and_false, if_false]
    have h0 : (filter marshal db (fun key _ => pred key s) []).1 = [] :=
      List.length_eq_zero.mp hl
    exact Prod.ext h0 herr

/-- C13: for an ldb tier and a string s, no limit given and the iterator reporting
no error: if some local key has prefix s, HasPrefix(s) returns a map whose key
set is exactly the set of local keys with prefix s; if none has and a next tier
exists, the result is that of next.HasPrefix(s); without next tier it is the
empty map.  The same holds for HasSuffix and Contains with their predicates. -/
theorem scan_local_then_next (marshal : Envelope → String) (glob : String → String → Bool)
    (now : Int) (s : String) (db : LevelDB) (next : List Cache)
    (hiter : db.fault DBOp.iterate "" = none) :
    LocalThenNext (localKeys db bytesHasPrefix s) next
      (HasPrefix marshal glob now s [] (Cache.levelDBCache db :: next))
      (HasPrefix marshal glob now s [] next) ∧
    LocalThenNext (localKeys db bytesHasSuffix s) next
      (HasSuffix marshal glob now s [] (Cache.levelDBCache db :: next))
      (HasSuffix marshal glob now s [] next) ∧
    LocalThenNext (localKeys db bytesContains s) next
      (Contains marshal glob now s [] (Cache.levelDBCache db :: next))
      (Contains marshal glob now s [] next) :=
  ⟨scanChain_ldb marshal glob bytesHasPrefix _ now s db next hiter,
   scanChain_ldb marshal glob bytesHasSuffix _ now s db next hiter,
   scanChain_ldb marshal glob bytesContains _ now s db next hiter⟩

/-- Instance of C13: the tier holding "foo1", "bar" and "foo2" in front of a
redis tier holding "k"; the prefix "foo" selects "foo1" and "foo2", the prefix
"zz" selects nothing and the call goes to the next tier. -/
theorem scan_local_then_next_witness :
    (∀ k, k ∈ (HasPrefix dataText globAny 105 "foo" []
        (Cache.levelDBCache scanTier :: redisHoldingK)).1.map Prod.fst
      ↔ k ∈ ["foo1", "foo2"]) ∧
    HasPrefix dataText globAny 105 "zz" [] (Cache.levelDBCache scanTier :: redisHoldingK)
      = HasPrefix dataText globAny 105 "zz" [] redisHoldingK :=
  ⟨((scan_local_then_next dataText globAny 105 "foo" scanTier redisHoldingK rfl).1.1
      (by decide)).2,
   (scan_local_then_next dataText globAny 105 "zz" scanTier redisHoldingK rfl).1.2.1
      (by decide) (by simp [redisHoldingK])⟩

/-! ## Counters -/

/-- C17 at a failing input: on an empty ldb tier without next tier IncrBy("k", 2)
returns 2 and the following IncrBy("k", 3) returns 3, not 5; two consecutive
Incr("k") return 1 and 1.  The counter is stored by `Set` without expiration,
its envelope has ExpiredDuration 0, and the next read evicts it as expired. -/
theorem incr_forgets_stored_counter :
    (IncrBy refusingIncrBy 100 "k" 2 loneLdb).1 = (2, none) ∧
    ((IncrBy refusingIncrBy 100 "k" 2 loneLdb).2.map (fun c => c.stored "k")
      = [some ⟨0, 100, Value.int 2⟩]) ∧
    (GetInt 101 "k" (IncrBy refusingIncrBy 100 "k" 2 loneLdb).2).1 = 0 ∧
    (IncrBy refusingIncrBy 101 "k" 3 (IncrBy refusingIncrBy 100 "k" 2 loneLdb).2).1
      = (3, none) ∧
    (Incr refusingIncrBy 100 "k" loneLdb).1 = (1, none) ∧
    (Incr refusingIncrBy 101 "k" (Incr refusingIncrBy 100 "k" loneLdb).2).1 = (1, none) := by
  decide

/-- A tier with a next tier hands IncrBy on and is itself unchanged. -/
theorem IncrBy_cons_cons (rincr : Redis → Int → String → Int → (Int × Option Error) × Redis)
    (now : Int) (key : String) (step : Int) (c d : Cache) (next : List Cache) :
    IncrBy rincr now key step (c :: d :: next)
      = ((IncrBy rincr now key step (d :: next)).1,
         c :: (IncrBy rincr now key step (d :: next)).2) := by
  cases c <;> simp [IncrBy]

/-- A tier with a next tier hands Incr on and is itself unchanged. -/
theorem Incr_cons_cons (rincr : Redis → Int → String → Int → (Int × Option Error) × Redis)
    (now : Int) (key : String) (c d : Cache) (next : List Cache) :
    Incr rincr now key (c :: d :: next)
      = ((Incr rincr now key (d :: next)).1, c :: (Incr rincr now key (d :: next)).2) := by
  cases c <;> simp [Incr]

/-- A tier with a next tier hands IncrByFloat on and is itself unchanged. -/
theorem IncrByFloat_cons_cons {F : Type} (fl : Float64Ops F) (now : Int) (key : String)
    (step : F) (c d : Cache) (next : List Cache) :
    IncrByFloat fl now key step (c :: d :: next)
      = ((IncrByFloat fl now key step (d :: next)).1,
         c :: (IncrByFloat fl now key step (d :: next)).2) := by
  cases c <;> simp [IncrByFloat]

/-- C14: on a chain made of the tiers pre followed by the tail tier, Incr(k),
IncrBy(k, n) and IncrByFloat(k, x) issued on the head return exactly what the
same call on the tail tier returns, and the tiers of pre, their backends
included, are afterwards what they were, whatever their backends hold for k. -/
theorem counters_run_at_tail {F : Type}
    (rincr : Redis → Int → String → Int → (Int × Option Error) × Redis)
    (fl : Float64Ops F) (now : Int) (k : String) (n : Int) (x : F)
    (pre : List Cache) (tail : Cache) :
    Incr rincr now k (pre ++ [tail])
      = ((Incr rincr now k [tail]).1, pre ++ (Incr rincr now k [tail]).2) ∧
    IncrBy rincr now k n (pre ++ [tail])
      = ((IncrBy rincr now k n [tail]).1, pre ++ (IncrBy rincr now k n [tail]).2) ∧
    IncrByFloat fl now k x (pre ++ [tail])
      = ((IncrByFloat fl now k x [tail]).1, pre ++ (IncrByFloat fl now k x [tail]).2) := by
  induction pre with
  | nil => exact ⟨rfl, rfl, rfl⟩
  | cons a pre ih =>
    obtain ⟨i1, i2, i3⟩ := ih
    have hshape : ∃ d rest, pre ++ [tail] = d :: rest := by
      cases pre with
      | nil => exact ⟨_, _, rfl⟩
      | cons d ds => exact ⟨_, _, rfl⟩
    obtain ⟨d, rest, hdr⟩ := hshape
    rw [List.cons_append]
    rw [hdr] at i1 i2 i3 ⊢
    rw [Incr_cons_cons, IncrBy_cons_cons, IncrByFloat_cons_cons, i1, i2, i3]
    exact ⟨rfl, rfl, rfl⟩

/-- Instance of C14: the head holds the live counter 7 for "k", the tail is an
empty ldb tier; IncrBy("k", 5) on the head is the call on the tail, which
returns 5, and the head is unchanged. -/
theorem counters_run_at_tail_witness :
    IncrBy refusingIncrBy 105 "k" 5 ([staleHead] ++ [Cache.levelDBCache ⟨[], healthyDB⟩])
      = ((IncrBy refusingIncrBy 105 "k" 5 [Cache.levelDBCache ⟨[], healthyDB⟩]).1,
         [staleHead]
          ++ (IncrBy refusingIncrBy 105 "k" 5 [Cache.levelDBCache ⟨[], healthyDB⟩]).2) ∧
    (IncrBy refusingIncrBy 105 "k" 5 [Cache.levelDBCache ⟨[], healthyDB⟩]).1 = (5, none) :=
  ⟨(counters_run_at_tail refusingIncrBy wholeFloats 105 "k" 5 0 [staleHead]
      (Cache.levelDBCache ⟨[], healthyDB⟩)).2.1, by decide⟩

/-- A redis tier without next tier never reports a key as present: EXISTS of one
key answers at most 1, and the test is `> 1`. -/
theorem Has_redis_tail_false (rdb : Redis) (now : Int) (k : String) :
    (Has now k [Cache.redisCache rdb]).1 = false := by
  have hle : rdb.Exists now [k] ≤ 1 := by
    unfold Redis.Exists
    split
    · decide
    · by_cases h : (rdb.live now k).isSome = true <;> simp [List.filter_cons, h]
  have hnot : ¬ rdb.Exists now [k] > 1 := by omega
  simp [Has, hnot]

/-- The value `levelDBCache.TTL` returns for a live local entry: the time since
the expiry instant as a duration, which is not positive. -/
theorem ldb_TTL_value (db : LevelDB) (next : List Cache) (k : String) (v : Value)
    (d t0 t : Int) (hd : 0 < d) (h1 : t ≤ t0 + d)
    (hstored : db.data.lookup k = some ⟨d, t0, v⟩)
    (hget : db.fault DBOp.get k = none) :
    (TTL t k (Cache.levelDBCache db :: next)).1 = (saturate64 (t - (t0 + d)), true) ∧
    saturate64 (t - (t0 + d)) ≤ 0 := by
  have hlt : ¬ (t > t0 + d) := not_lt.mpr h1
  constructor
  · simp [TTL, hasGet, LevelDB.Get, hget, hstored, hd, hlt]
  · unfold saturate64
    split_ifs <;> omega

/-! ## Chain builder -/

/-- Configs that construct without error and are not at the last position are
all constructed, in order, and the loop goes on behind them. -/
theorem buildLoop_ok_prefix (driverMap : String → Option Driver) (n : Nat)
    (pre rest : List Config) (hs : List Handle) (index : Nat) (caches : List Handle)
    (calls : List Call)
    (hpre : pre.map (NewCache driverMap) = hs.map Built.ok)
    (hlt : index + pre.length < n) :
    buildLoop driverMap n index (pre ++ rest) caches calls
      = buildLoop driverMap n (index + pre.length) rest (caches ++ hs)
          (calls ++ pre.map Call.NewCache) := by
  induction pre generalizing hs index caches calls with
  | nil =>
    cases hs with
    | nil => simp
    | cons h hs => simp at hpre
  | cons c pre ih =>
    cases hs with
    | nil => simp at hpre
    | cons h hs =>
      simp only [List.map_cons, List.cons.injEq] at hpre
      obtain ⟨hc, hrest⟩ := hpre
      simp only [List.length_cons] at hlt
      have hidx : ¬ index = n - 1 := by omega
      rw [List.cons_append, buildLoop]
      simp only [hc, hidx, false_and, if_false]
      rw [ih hs (index + 1) (caches ++ [h]) (calls ++ [Call.NewCache c]) hrest (by omega)]
      simp only [List.length_cons, List.append_assoc, List.singleton_append, List.map_cons]
      congr 1
      omega

/-- A loop that ends without error has constructed every config, in order. -/
theorem buildLoop_success (driverMap : String → Option Driver) (n : Nat)
    (configs : List Config) (index : Nat) (caches : List Handle) (calls : List Call)
    (h : (buildLoop driverMap n index configs caches calls).newErr = none) :
    ∃ hs : List Handle, configs.map (NewCache driverMap) = hs.map Built.ok ∧
      (buildLoop driverMap n index configs caches calls).caches = caches ++ hs := by
  induction configs generalizing index caches calls with
  | nil => exact ⟨[], rfl, by simp [buildLoop]⟩
  | cons c rest ih =>
    rw [buildLoop] at h ⊢
    cases hc : NewCache driverMap c with
    | failed err => simp [hc] at h
    | failedWith h1 err => simp [hc] at h
    | ok cache =>
      simp only [hc] at h ⊢
      by_cases hlast : index = n - 1 ∧ cache.RemoteSupport = false
      · simp [hlast] at h
      · simp only [hlast, if_false] at h ⊢
        obtain ⟨hs, h1, h2⟩ := ih (index + 1) (caches ++ [cache])
          (calls ++ [Call.NewCache c]) h
        refine ⟨cache :: hs, ?_, ?_⟩
        · simp [hc, h1]
        · rw [h2]; simp

/-- A config whose construction fails ends the loop with that error; the tiers
constructed before it are the ones kept. -/
theorem buildLoop_fail_here (driverMap : String → Option Driver) (n index : Nat)
    (c : Config) (post : List Config) (caches : List Handle) (calls : List Call) (e : Error)
    (hc : NewCache driverMap c = Built.failed e ∨
      ∃ h, NewCache driverMap c = Built.failedWith h e) :
    (buildLoop driverMap n index (c :: post) caches calls).caches = caches ∧
    (buildLoop driverMap n index (c :: post) caches calls).newErr = some e ∧
    (buildLoop driverMap n index (c :: post) caches calls).calls
      = calls ++ [Call.NewCache c] := by
  rw [buildLoop]
  rcases hc with hc | ⟨h, hc⟩ <;> simp [hc]

/-- The failure paths of NewMultiLevelCache.  With fewer than two configs it returns
the configuration error and nil and makes no backend call.  If the config c
after the prefix pre is the first whose construction fails, with error e, it
returns e and nil, and the backend calls are the constructions of pre and c
followed by Close on each tier constructed from pre, in order.  If all configs
construct and the last tier reports RemoteSupport() = false, it returns the
configuration error and nil after Close on every constructed tier, the last
included. -/
theorem NewMultiLevelCache_failure (driverMap : String → Option Driver)
    (configs : List Config) :
    (configs.length < 2 →
      (NewMultiLevelCache driverMap configs).cache = none ∧
      (NewMultiLevelCache driverMap configs).err = some Error.config ∧
      (NewMultiLevelCache driverMap configs).calls = []) ∧
    (∀ (pre post : List Config) (c : Config) (hs : List Handle) (e : Error),
      configs = pre ++ c :: post → 2 ≤ configs.length →
      pre.map (NewCache driverMap) = hs.map Built.ok →
      (NewCache driverMap c = Built.failed e ∨
        ∃ h, NewCache driverMap c = Built.failedWith h e) →
      (NewMultiLevelCache driverMap configs).cache = none ∧
      (NewMultiLevelCache driverMap configs).err = some e ∧
      (NewMultiLevelCache driverMap configs).calls
        = (pre ++ [c]).map Call.NewCache ++ hs.map Call.Close) ∧
    (∀ (pre : List Config) (c : Config) (hs : List Handle) (h : Handle),
      configs = pre ++ [c] → 2 ≤ configs.length →
      pre.map (NewCache driverMap) = hs.map Built.ok →
      NewCache driverMap c = Built.ok h → h.RemoteSupport = false →
      (NewMultiLevelCache driverMap configs).cache = none ∧
      (NewMultiLevelCache driverMap configs).err = some Error.config ∧
      (NewMultiLevelCache driverMap configs).calls
        = configs.map Call.NewCache ++ (hs ++ [h]).map Call.Close) := by
  refine ⟨?_, ?_, ?_⟩
  · intro hlt
    simp [NewMultiLevelCache, hlt]
  · intro pre post c hs e hcfg hlen hpre hc
    subst hcfg
    have hn : ¬ (pre ++ c :: post).length < 2 := by omega
    have hlt : 0 + pre.length < (pre ++ c :: post).length := by simp
    obtain ⟨f1, f2, f3⟩ := buildLoop_fail_here driverMap (pre ++ c :: post).length
      (0 + pre.length) c post ([] ++ hs) ([] ++ pre.map Call.NewCache) e hc
    have hloop := buildLoop_ok_prefix driverMap (pre ++ c :: post).length pre (c :: post) hs
      0 [] [] hpre hlt
    simp only [NewMultiLevelCache, hn, if_false, hloop, f1, f2, f3]
    simp
  · intro pre c hs h hcfg hlen hpre hc hremote
    subst hcfg
    have hn : ¬ (pre ++ [c]).length < 2 := by omega
    have hlt : 0 + pre.length < (pre ++ [c]).length := by simp
    have hloop := buildLoop_ok_prefix driverMap (pre ++ [c]).length pre [c] hs
      0 [] [] hpre hlt
    have hidx : 0 + pre.length = (pre ++ [c]).length - 1 := by simp
    simp only [NewMultiLevelCache, hn, if_false, hloop]
    rw [buildLoop]
    simp only [hc, hidx, hremote, and_self, if_true]
    simp

/-- The failure paths on the registry of the two drivers: one config; a redis
server that is down behind an ldb tier; and a chain of two ldb tiers, whose last
tier does not support remote messages. -/
theorem NewMultiLevelCache_failure_witness :
    ((NewMultiLevelCache registry [⟨"ldb", "tmp"⟩]).cache = none ∧
      (NewMultiLevelCache registry [⟨"ldb", "tmp"⟩]).err = some Error.config ∧
      (NewMultiLevelCache registry [⟨"ldb", "tmp"⟩]).calls = []) ∧
    ((NewMultiLevelCache registry [⟨"ldb", "tmp"⟩, ⟨"redis", "down"⟩]).cache = none ∧
      (NewMultiLevelCache registry [⟨"ldb", "tmp"⟩, ⟨"redis", "down"⟩]).err
        = some (Error.backend 3) ∧
      (NewMultiLevelCache registry [⟨"ldb", "tmp"⟩, ⟨"redis", "down"⟩]).calls
        = [Call.NewCache ⟨"ldb", "tmp"⟩, Call.NewCache ⟨"redis", "down"⟩,
           Call.Close ⟨"ldb:tmp", false, none⟩]) ∧
    ((NewMultiLevelCache registry [⟨"ldb", "a"⟩, ⟨"ldb", "b"⟩]).cache = none ∧
      (NewMultiLevelCache registry [⟨"ldb", "a"⟩, ⟨"ldb", "b"⟩]).err = some Error.config ∧
      (NewMultiLevelCache registry [⟨"ldb", "a"⟩, ⟨"ldb", "b"⟩]).calls
        = [Call.NewCache ⟨"ldb", "a"⟩, Call.NewCache ⟨"ldb", "b"⟩,
           Call.Close ⟨"ldb:a", false, none⟩, Call.Close ⟨"ldb:b", false, none⟩]) :=
  ⟨(NewMultiLevelCache_failure registry [⟨"ldb", "tmp"⟩]).1 (by decide),
   (NewMultiLevelCache_failure registry [⟨"ldb", "tmp"⟩, ⟨"redis", "down"⟩]).2.1
      [⟨"ldb", "tmp"⟩] [] ⟨"redis", "down"⟩ [⟨"ldb:tmp", false, none⟩] (Error.backend 3)
      rfl (by decide) (by decide) (Or.inl (by decide)),
   (NewMultiLevelCache_failure registry [⟨"ldb", "a"⟩, ⟨"ldb", "b"⟩]).2.2
      [⟨"ldb", "a"⟩] ⟨"ldb", "b"⟩ [⟨"ldb:a", false, none⟩] ⟨"ldb:b", false, none⟩
      rfl (by decide) (by decide) (by decide) rfl⟩

/-- C15 at a failing input: configs [ldb, redis] where the redis server
answers the ping and refuses the subscription, so that the driver returns its
instance together with the error.  NewMultiLevelCache returns that error and
nil and closes the ldb tier, but the redis instance was not appended to the
tiers to close: its connection is opened and never closed.  When the server
cannot be reached at all, nothing is left open. -/
theorem NewMultiLevelCache_leaks_failed_instance :
    NewCache registry ⟨"redis", "nosub"⟩
      = Built.failedWith ⟨"redis:nosub", true, none⟩ (Error.backend 6) ∧
    (NewMultiLevelCache registry [⟨"ldb", "tmp"⟩, ⟨"redis", "nosub"⟩]).cache = none ∧
    (NewMultiLevelCache registry [⟨"ldb", "tmp"⟩, ⟨"redis", "nosub"⟩]).err
      = some (Error.backend 6) ∧
    (NewMultiLevelCache registry [⟨"ldb", "tmp"⟩, ⟨"redis", "nosub"⟩]).calls
      = [Call.NewCache ⟨"ldb", "tmp"⟩, Call.NewCache ⟨"redis", "nosub"⟩,
         Call.Close ⟨"ldb:tmp", false, none⟩] ∧
    Call.Close ⟨"redis:nosub", true, none⟩
      ∉ (NewMultiLevelCache registry [⟨"ldb", "tmp"⟩, ⟨"redis", "nosub"⟩]).calls ∧
    leaked registry (NewMultiLevelCache registry [⟨"ldb", "tmp"⟩, ⟨"redis", "nosub"⟩]).calls
      = [⟨"redis:nosub", true, none⟩] ∧
    leaked registry (NewMultiLevelCache registry [⟨"ldb", "tmp"⟩, ⟨"redis", "down"⟩]).calls
      = [] := by
  decide

/-! ## Close on the returned handle -/

/-- C16 as stated fails: on the chain built from an ldb config and a redis
config (whose connection fails to close, error 5) Close on the returned handle
makes one backend call, the Close of the ldb tier; the redis tier is not closed
and the result is nil, not the close error of the redis tier. -/
theorem Close_counterexample :
    (NewMultiLevelCache registry [⟨"ldb", "tmp"⟩, ⟨"redis", "flaky"⟩]).cache
      = some [⟨"ldb:tmp", false, none⟩, ⟨"redis:flaky", true, some (Error.backend 5)⟩] ∧
    (Close [⟨"ldb:tmp", false, none⟩, ⟨"redis:flaky", true, some (Error.backend 5)⟩]).2
      = [Call.Close ⟨"ldb:tmp", false, none⟩] ∧
    Call.Close ⟨"redis:flaky", true, some (Error.backend 5)⟩
      ∉ (Close [⟨"ldb:tmp", false, none⟩,
          ⟨"redis:flaky", true, some (Error.backend 5)⟩]).2 ∧
    (Close [⟨"ldb:tmp", false, none⟩, ⟨"redis:flaky", true, some (Error.backend 5)⟩]).1
      = none := by
  decide

/-- C16 amended: when NewMultiLevelCache returns a chain, the chain has one tier
per config (so at least two), the tier at each position is the one constructed
from the config at that position, and Close() on the returned handle closes the
backend of the head tier only, exactly once, and returns that backend's close
result; the tiers after the head are not closed by it. -/
theorem Close_closes_head_only (driverMap : String → Option Driver)
    (configs : List Config) (chain : List Handle)
    (hbuilt : (NewMultiLevelCache driverMap configs).cache = some chain) :
    chain.length = configs.length ∧ 2 ≤ chain.length ∧
    chain.map Built.ok = configs.map (NewCache driverMap) ∧
    ∃ (h : Handle) (rest : List Handle), chain = h :: rest ∧ rest ≠ [] ∧
      Close chain = (h.closeErr, [Call.Close h]) ∧
      ∀ r ∈ rest, r ≠ h → Call.Close r ∉ (Close chain).2 := by
  unfold NewMultiLevelCache at hbuilt
  by_cases hlt : configs.length < 2
  · simp [hlt] at hbuilt
  · simp only [hlt, if_false] at hbuilt
    cases herr : (buildLoop driverMap configs.length 0 configs [] []).newErr with
    | some e => simp [herr] at hbuilt
    | none =>
      simp only [herr, Option.some.injEq] at hbuilt
      obtain ⟨hs, h1, h2⟩ := buildLoop_success driverMap configs.length configs 0 [] [] herr
      rw [List.nil_append] at h2
      have hch : chain = hs := by rw [← hbuilt, h2]
      subst hch
      have hlen : chain.length = configs.length := by
        have := congrArg List.length h1
        simpa using this.symm
      have h2le : 2 ≤ chain.length := by omega
      refine ⟨hlen, h2le, h1.symm, ?_⟩
      match chain, h2le with
      | h :: r :: rest, _ =>
        refine ⟨h, r :: rest, rfl, by simp, rfl, ?_⟩
        intro x _ hx
        simp only [Close, List.mem_singleton, Call.Close.injEq]
        exact hx

/-- Instance of C16 amended: the chain built from an ldb and a redis config. -/
theorem Close_closes_head_only_witness :
    ([⟨"ldb:tmp", false, none⟩, ⟨"redis:flaky", true, some (Error.backend 5)⟩]
        : List Handle).length
      = ([⟨"ldb", "tmp"⟩, ⟨"redis", "flaky"⟩] : List Config).length ∧
    ∃ (h : Handle) (rest : List Handle),
      [⟨"ldb:tmp", false, none⟩, ⟨"redis:flaky", true, some (Error.backend 5)⟩] = h :: rest ∧
      rest ≠ [] ∧
      Close [⟨"ldb:tmp", false, none⟩, ⟨"redis:flaky", true, some (Error.backend 5)⟩]
        = (h.closeErr, [Call.Close h]) ∧
      ∀ r ∈ rest, r ≠ h → Call.Close r
        ∉ (Close [⟨"ldb:tmp", false, none⟩,
            ⟨"redis:flaky", true, some (Error.backend 5)⟩]).2 :=
  (fun h => ⟨h.1, h.2.2.2⟩)
    (Close_closes_head_only registry [⟨"ldb", "tmp"⟩, ⟨"redis", "flaky"⟩]
      [⟨"ldb:tmp", false, none⟩, ⟨"redis:flaky", true, some (Error.backend 5)⟩]
      (by decide))

end MultiLevel
